import Mathlib

/-!
Shallow embedding of the lector-server document-processing and chat core.

Each definition translates one Go function of the repository:
  - subscription plan gates        (internal/domain/subscription.go)
  - PDF text sanitization/extraction (internal/service/pdf_processor.go)
  - document upload lifecycle      (internal/service/document_service.go)
  - retrieval ingestion and chat   (internal/service/ai_service.go)

Strings are Lean String (sequences of Unicode scalar values, matching what
a Go for-range loop yields over a string after invalid-byte replacement).
Go int / int64 are modelled as Int: none of the verified properties involve
overflow, every quantity stays far below 2^63.
-/

namespace Lector

/-! ## Go string helpers -/

/-- Character class of Go unicode.IsSpace, as used by strings.TrimSpace:
ASCII whitespace, NEL, NBSP, and the Unicode space separators. -/
def goIsSpace (c : Char) : Bool :=
  c.val = 0x09 ∨ c.val = 0x0A ∨ c.val = 0x0B ∨ c.val = 0x0C ∨ c.val = 0x0D ∨
  c.val = 0x20 ∨ c.val = 0x85 ∨ c.val = 0xA0 ∨ c.val = 0x1680 ∨
  (0x2000 ≤ c.val ∧ c.val ≤ 0x200A) ∨ c.val = 0x2028 ∨ c.val = 0x2029 ∨
  c.val = 0x202F ∨ c.val = 0x205F ∨ c.val = 0x3000

/-- Go strings.TrimSpace: drop leading and trailing whitespace. -/
def trimSpace (s : String) : String :=
  ⟨((s.data.dropWhile goIsSpace).reverse.dropWhile goIsSpace).reverse⟩

/-! ## internal/domain/subscription.go -/

/-- StorageLimitBytesForPlan: per-user storage quota for a subscription plan
(decimal 50GB for paid plans, 15MiB for the free tier). -/
def StorageLimitBytesForPlan (plan : String) : Int :=
  if plan = "pro_monthly" ∨ plan = "pro_yearly" ∨ plan = "founder_lifetime" then
    50000000000
  else
    15 * 1024 * 1024

/-- AskAIEnabledForPlan: whether the Ask AI feature is available for the plan. -/
def AskAIEnabledForPlan (plan : String) : Bool :=
  plan = "pro_monthly" ∨ plan = "pro_yearly" ∨ plan = "founder_lifetime"

/-- MonthlyAITokenLimitForPlan: monthly token quota (input+output combined);
0 means no access. -/
def MonthlyAITokenLimitForPlan (plan : String) : Int :=
  if ¬ AskAIEnabledForPlan plan then 0 else 500000

/-! ## PDFProcessor.sanitizeText (internal/service/pdf_processor.go)

The Go function has two passes: a rune filter, then a round-trip through
json.Marshal / two regexp removals / json.Unmarshal.  Both passes are
modelled below at the level of Unicode scalar sequences. -/

/-- First pass of sanitizeText: the per-rune filter.  Keeps tab, LF, CR,
printable ASCII, and non-surrogate code points at or above 0x7F; drops NUL
and the remaining control characters.  (A Lean Char can never hold a
surrogate, exactly like a rune produced by ranging over a Go string, but the
branch is kept as written in the source.) -/
def sanitizeFirstPass : List Char → List Char
  | [] => []
  | r :: rest =>
    if r.val = 0x00 then sanitizeFirstPass rest
    else if r.val = 0x09 ∨ r.val = 0x0A ∨ r.val = 0x0D then r :: sanitizeFirstPass rest
    else if 0x20 ≤ r.val ∧ r.val < 0x7F then r :: sanitizeFirstPass rest
    else if 0x7F ≤ r.val ∧ r.val ≤ 0x10FFFF then
      if r.val < 0xD800 ∨ 0xDFFF < r.val then r :: sanitizeFirstPass rest
      else sanitizeFirstPass rest
    else sanitizeFirstPass rest

/-- Lowercase hex digit, as produced by Go encoding/json for escapes. -/
def hexDigit (n : Nat) : Char :=
  if n = 0 then '0' else if n = 1 then '1' else if n = 2 then '2'
  else if n = 3 then '3' else if n = 4 then '4' else if n = 5 then '5'
  else if n = 6 then '6' else if n = 7 then '7' else if n = 8 then '8'
  else if n = 9 then '9' else if n = 10 then 'a' else if n = 11 then 'b'
  else if n = 12 then 'c' else if n = 13 then 'd' else if n = 14 then 'e'
  else 'f'

/-- How Go json.Marshal (with its default HTML escaping) encodes one
character of a string value. -/
def jsonEscapeChar (c : Char) : List Char :=
  if c = '"' then ['\\', '"']
  else if c = '\\' then ['\\', '\\']
  else if c = '<' ∨ c = '>' ∨ c = '&' then
    ['\\', 'u', '0', '0', hexDigit (c.toNat / 16), hexDigit (c.toNat % 16)]
  else if c.val < 0x20 then
    if c = '\n' then ['\\', 'n']
    else if c = '\r' then ['\\', 'r']
    else if c = '\t' then ['\\', 't']
    else ['\\', 'u', '0', '0', hexDigit (c.toNat / 16), hexDigit (c.toNat % 16)]
  else if c.val = 0x2028 ∨ c.val = 0x2029 then
    ['\\', 'u', '2', '0', '2', hexDigit (c.toNat % 16)]
  else [c]

/-- Go json.Marshal of a string: a double-quoted JSON string literal.
json.Marshal of a Go string never returns an error. -/
def jsonQuote (l : List Char) : List Char :=
  '"' :: (l.foldr (fun c acc => jsonEscapeChar c ++ acc) ['"'])

def isHexDigitChar (c : Char) : Bool :=
  ('0' ≤ c ∧ c ≤ '9') ∨ ('a' ≤ c ∧ c ≤ 'f') ∨ ('A' ≤ c ∧ c ≤ 'F')

/-- regexp.MustCompile of backslash-u00[0-1][0-9a-fA-F] followed by
ReplaceAllString(_, ""): removes every non-overlapping leftmost match,
resuming the scan after the removed text. -/
def removeControlEscapes : List Char → List Char
  | [] => []
  | '\\' :: 'u' :: '0' :: '0' :: d :: h :: rest2 =>
    if (d = '0' ∨ d = '1') ∧ isHexDigitChar h then removeControlEscapes rest2
    -- no match starting at the backslash: emit it and rescan; the pattern begins
    -- with a backslash, so no match can start at the u or at either 0 and the
    -- scan effectively resumes at d
    else '\\' :: 'u' :: '0' :: '0' :: removeControlEscapes (d :: h :: rest2)
  | c :: rest => c :: removeControlEscapes rest

def isSurrogateSecondChar (c : Char) : Bool :=
  c = '8' ∨ c = '9' ∨ c = 'a' ∨ c = 'A' ∨ c = 'b' ∨ c = 'B' ∨ c = 'c' ∨ c = 'C' ∨
  c = 'd' ∨ c = 'D' ∨ c = 'e' ∨ c = 'E' ∨ c = 'f' ∨ c = 'F'

/-- regexp.MustCompile of backslash-u[dD][89a-fA-F][0-9a-fA-F]x2 followed by
ReplaceAllString(_, ""): removes surrogate escape sequences. -/
def removeSurrogateEscapes : List Char → List Char
  | [] => []
  | '\\' :: 'u' :: d :: s :: h1 :: h2 :: rest2 =>
    if (d = 'd' ∨ d = 'D') ∧ isSurrogateSecondChar s ∧ isHexDigitChar h1 ∧ isHexDigitChar h2 then
      removeSurrogateEscapes rest2
    -- no match starting at the backslash: emit it and rescan; no match can
    -- start at the u, so the scan effectively resumes at d
    else '\\' :: 'u' :: removeSurrogateEscapes (d :: s :: h1 :: h2 :: rest2)
  | c :: rest => c :: removeSurrogateEscapes rest

def hexVal (c : Char) : Option Nat :=
  if '0' ≤ c ∧ c ≤ '9' then some (c.toNat - '0'.toNat)
  else if 'a' ≤ c ∧ c ≤ 'f' then some (c.toNat - 'a'.toNat + 10)
  else if 'A' ≤ c ∧ c ≤ 'F' then some (c.toNat - 'A'.toNat + 10)
  else none

def hex4 (h1 h2 h3 h4 : Char) : Option Nat :=
  match hexVal h1, hexVal h2, hexVal h3, hexVal h4 with
  | some a, some b, some c, some d => some (a * 4096 + b * 256 + c * 16 + d)
  | _, _, _, _ => none

/-- Make a Char from a code point, mapping anything invalid to U+FFFD
(the replacement rune Go uses for broken surrogates). -/
def charOfCodePoint (n : Nat) : Char :=
  if h : n < 0xD800 ∨ (0xDFFF < n ∧ n < 0x110000) then
    ⟨UInt32.ofNat n, by
      rcases h with h | h
      · exact Or.inl (by simp [UInt32.lt_def, UInt32.toNat_ofNat_of_lt (by omega : n < 4294967296)]; omega)
      · exact Or.inr (by
          constructor <;>
            simp [UInt32.lt_def, UInt32.toNat_ofNat_of_lt (by omega : n < 4294967296)] <;> omega)⟩
  else
    '�'

/-- Body of a JSON string value as decoded by Go json.Unmarshal into a Go
string, after the opening quote.  Returns none exactly when Go would report
an error: unterminated string, bad escape, raw control character, or
trailing data after the closing quote. -/
def jsonUnescapeAux : Nat → List Char → Option (List Char)
  | 0, _ => none
  | _ + 1, [] => none
  | _ + 1, '"' :: rest => if rest.isEmpty then some [] else none
  | fuel + 1, '\\' :: 'u' :: h1 :: h2 :: h3 :: h4 :: rest2 =>
    (match hex4 h1 h2 h3 h4 with
    | none => none
    | some n =>
      if 0xD800 ≤ n ∧ n < 0xDC00 then
        -- high surrogate: pair with a following low surrogate, else U+FFFD
        match rest2 with
        | '\\' :: 'u' :: g1 :: g2 :: g3 :: g4 :: rest3 =>
          (match hex4 g1 g2 g3 g4 with
          | some m =>
            if 0xDC00 ≤ m ∧ m < 0xE000 then
              (jsonUnescapeAux fuel rest3).map
                (fun l => charOfCodePoint (0x10000 + (n - 0xD800) * 1024 + (m - 0xDC00)) :: l)
            else (jsonUnescapeAux fuel ('\\' :: 'u' :: g1 :: g2 :: g3 :: g4 :: rest3)).map
              (fun l => '�' :: l)
          | none => (jsonUnescapeAux fuel ('\\' :: 'u' :: g1 :: g2 :: g3 :: g4 :: rest3)).map
              (fun l => '�' :: l))
        | r => (jsonUnescapeAux fuel r).map (fun l => '�' :: l)
      else if 0xDC00 ≤ n ∧ n < 0xE000 then
        (jsonUnescapeAux fuel rest2).map (fun l => '�' :: l)
      else
        (jsonUnescapeAux fuel rest2).map (fun l => charOfCodePoint n :: l))
  | fuel + 1, '\\' :: e :: rest1 =>
    if e = '"' then (jsonUnescapeAux fuel rest1).map (fun l => '"' :: l)
    else if e = '\\' then (jsonUnescapeAux fuel rest1).map (fun l => '\\' :: l)
    else if e = '/' then (jsonUnescapeAux fuel rest1).map (fun l => '/' :: l)
    else if e = 'b' then (jsonUnescapeAux fuel rest1).map (fun l => '\x08' :: l)
    else if e = 'f' then (jsonUnescapeAux fuel rest1).map (fun l => '\x0C' :: l)
    else if e = 'n' then (jsonUnescapeAux fuel rest1).map (fun l => '\n' :: l)
    else if e = 'r' then (jsonUnescapeAux fuel rest1).map (fun l => '\r' :: l)
    else if e = 't' then (jsonUnescapeAux fuel rest1).map (fun l => '\t' :: l)
    else none
  | fuel + 1, c :: rest =>
    if c.val < 0x20 then none
    else (jsonUnescapeAux fuel rest).map (fun l => c :: l)

/-- Body of a JSON string decoded with a step budget; every step consumes at
least one input character, so a budget of one more than the input length is
never exhausted. -/
def jsonUnescapeBody (l : List Char) : Option (List Char) :=
  jsonUnescapeAux (l.length + 1) l

/-- Go json.Unmarshal of a byte slice into a string variable. -/
def jsonUnmarshalString (l : List Char) : Option (List Char) :=
  match l with
  | '"' :: rest => jsonUnescapeBody rest
  | _ => none

/-- PDFProcessor.sanitizeText: the rune filter followed by the
marshal / regexp-strip / unmarshal round trip, with the same fallback
ladder as the source. -/
def sanitizeText (text : String) : String :=
  let sanitized := sanitizeFirstPass text.data
  let jsonStr := jsonQuote sanitized
  let jsonStr := removeControlEscapes jsonStr
  let jsonStr := removeSurrogateEscapes jsonStr
  let jsonStr := jsonStr.filter (fun c => c.val ≠ 0)
  match jsonUnmarshalString jsonStr with
  | some testStr => ⟨testStr⟩
  | none =>
    -- unmarshal failed: clean more aggressively and retry once
    let cleaned := sanitized.filter (fun c => c.val ≠ 0)
    let t2 := jsonQuote cleaned
    let t2 := removeControlEscapes t2
    let t2 := removeSurrogateEscapes t2
    match jsonUnmarshalString t2 with
    | some testStr => ⟨testStr⟩
    | none => ⟨cleaned⟩

/-! ## PDFProcessor text extraction (internal/service/pdf_processor.go) -/

/-- TextBlock: one block of text extracted from a PDF page. -/
structure TextBlock where
  type : String
  content : String
  level : Int
  pageNumber : Int
  position : Int
deriving DecidableEq, Repr

/-- PDFMetadata: metadata extracted from the PDF document. -/
structure PDFMetadata where
  author : String
  pageCount : Int
  hasPassword : Bool
  title : String
deriving DecidableEq, Repr

/-- Outcome of extracting the text of one page: the native doc.Text call
either returns text, returns an error, or outruns the hard 90-second
timeout (in which case the source substitutes empty text and a timeout
error, then takes the same error branch). -/
inductive PageFetch where
  | ok (text : String)
  | failed (msg : String)
  | timedOut
deriving DecidableEq, Repr

/-- An opened PDF document, as seen through the go-fitz handle: its
metadata strings and the per-page extraction outcomes.  NumPage is the
number of pages. -/
structure PDFDoc where
  title : String
  author : String
  pages : List PageFetch
deriving DecidableEq, Repr

/-- First of the two ReplaceAll calls in splitIntoParagraphs:
strings.ReplaceAll(text, CRLF, LF). -/
def replaceCRLF : List Char → List Char
  | [] => []
  | '\r' :: '\n' :: rest => '\n' :: replaceCRLF rest
  | c :: rest => c :: replaceCRLF rest

/-- Second ReplaceAll: strings.ReplaceAll(text, CR, LF). -/
def replaceCR (l : List Char) : List Char :=
  l.map (fun c => if c = '\r' then '\n' else c)

/-- strings.Split(text, LF LF): split on non-overlapping double newlines. -/
def splitDoubleNL : List Char → List (List Char)
  | [] => [[]]
  | '\n' :: '\n' :: rest => [] :: splitDoubleNL rest
  | c :: rest =>
    match splitDoubleNL rest with
    | h :: t => (c :: h) :: t
    | [] => [[c]]

/-- splitIntoParagraphs: normalize line breaks, split on blank lines, turn
remaining single newlines into spaces, trim, and drop empties. -/
def splitIntoParagraphs (text : String) : List String :=
  let cs := replaceCR (replaceCRLF text.data)
  ((splitDoubleNL cs).map
      (fun p => trimSpace ⟨p.map (fun c => if c = '\n' then ' ' else c)⟩)).filter
    (fun s => s ≠ "")

/-- Approximation of Go strings.ToUpper used only by the heading heuristic:
ASCII uppercasing.  None of the verified claims depends on the heading
classification of a block. -/
def goToUpper (s : String) : String :=
  ⟨s.data.map Char.toUpper⟩

/-- Go len(s): the UTF-8 byte length of a string. -/
def goLen (s : String) : Nat :=
  s.utf8ByteSize

/-- isHeading: heuristic for detecting headings (single line, short,
all-uppercase or very short). -/
def isHeading (text : String) : Bool :=
  let text := trimSpace text
  if goLen text = 0 then false
  else if text.data.contains '\n' then false
  else if goLen text < 100 then
    if text = goToUpper text ∧ 3 < goLen text then true
    else if goLen text < 50 then true
    else false
  else false

/-- The body of the paragraph loop of ProcessPDFWithCallbacks: consumes the
paragraphs of one page, threading the position counter, and returns the
emitted blocks together with the sanitized paragraph texts (pageOut). -/
def processParagraphs (pageNumber : Int) : List String → Int → List TextBlock × List String
  | [], _ => ([], [])
  | para :: rest, positionCounter =>
    let para := trimSpace para
    if para = "" then processParagraphs pageNumber rest positionCounter
    else
      let blockType := if isHeading para then "heading" else "paragraph"
      let level : Int := if isHeading para then 1 else 0
      let sanitizedContent := sanitizeText para
      let (bs, outs) := processParagraphs pageNumber rest (positionCounter + 1)
      (⟨blockType, sanitizedContent, level, pageNumber, positionCounter⟩ :: bs,
       sanitizedContent :: outs)

/-- Go strings.Join with separator. -/
def goJoin (sep : String) : List String → String
  | [] => ""
  | [s] => s
  | s :: rest => s ++ sep ++ goJoin sep rest

/-- An empty block emitted for a page whose extraction failed, timed out,
or produced no text; it preserves the page structure. -/
def emptyBlock (pageNumber : Int) : TextBlock :=
  ⟨"paragraph", "", 0, pageNumber, 0⟩

/-- Processing of one page inside the page loop of
ProcessPDFWithCallbacks: returns the blocks appended for the page and the
text passed to the onPage callback. -/
def processPage (pageNumber : Int) (fetch : PageFetch) : List TextBlock × String :=
  match fetch with
  | .failed _ => ([emptyBlock pageNumber], "")
  | .timedOut => ([emptyBlock pageNumber], "")
  | .ok raw =>
    let text := trimSpace raw
    if text = "" then ([emptyBlock pageNumber], "")
    else
      let paragraphs := splitIntoParagraphs text
      let (bs, pageOut) := processParagraphs pageNumber paragraphs 0
      (bs, trimSpace (goJoin "\n\n" pageOut))

/-- The page loop of ProcessPDFWithCallbacks, starting at 0-based index
idx: accumulates blocks across pages and records each onPage callback
invocation as a (pageNumber, pageText) pair, in call order. -/
def processPages : List PageFetch → Nat → List TextBlock × List (Int × String)
  | [], _ => ([], [])
  | f :: rest, idx =>
    let (bs, txt) := processPage ((idx : Int) + 1) f
    let (bs2, trace) := processPages rest (idx + 1)
    (bs ++ bs2, ((idx : Int) + 1, txt) :: trace)

/-- ProcessPDFWithCallbacks after a successful open: metadata (with
PageCount = NumPage), the accumulated blocks, and the onPage trace.  When
the open itself fails the function returns the open error instead and no
page is processed; that case is handled at the caller (processAndUpdate). -/
def processPDF (doc : PDFDoc) : List TextBlock × PDFMetadata × List (Int × String) :=
  let metadata : PDFMetadata :=
    { author := doc.author
      pageCount := (doc.pages.length : Int)
      hasPassword := false
      title := doc.title }
  let (blocks, trace) := processPages doc.pages 0
  (blocks, metadata, trace)

/-! ## PDFProcessor.ConvertToOptimizedPagesJSON: the pages array

The source sorts the blocks by (pageNumber, position), then walks them with
a current-page cursor and a string builder, flushing the builder into the
pages slice whenever the page changes.  The pageCount variable and
len(pages) are kept equal throughout the loop (both are initialised to the
clamped page count and both are advanced to pn+1 on growth), so the model
uses pages.length where the source reads pageCount. -/

/-- The comparison function passed to sort.Slice. -/
def blockLess (a b : TextBlock) : Bool :=
  if a.pageNumber ≠ b.pageNumber then a.pageNumber < b.pageNumber
  else a.position < b.position

/-- sort.Slice on the blocks: a sort whose result is ordered by
(pageNumber, position). -/
def sortBlocks (blocks : List TextBlock) : List TextBlock :=
  blocks.mergeSort (fun a b => ¬ blockLess b a)

/-- The loop state of ConvertToOptimizedPagesJSON: the pages slice, the
current 0-based page cursor, and the pending string builder. -/
structure OptState where
  pages : List String
  currentPage : Int
  sb : String
deriving Repr

/-- The flush closure: write the trimmed builder into the slice at the
cursor when the cursor is in range, and reset the builder. -/
def optFlush (s : OptState) : OptState :=
  if 0 ≤ s.currentPage ∧ s.currentPage.toNat < s.pages.length then
    { pages := s.pages.set s.currentPage.toNat (trimSpace s.sb)
      currentPage := s.currentPage
      sb := "" }
  else
    { s with sb := "" }

/-- Slice growth: append empty strings until the slice holds n entries. -/
def optGrow (pages : List String) (n : Nat) : List String :=
  pages ++ List.replicate (n - pages.length) ""

/-- One iteration of the block loop. -/
def optStep (s : OptState) (b : TextBlock) : OptState :=
  let pn := b.pageNumber - 1
  if pn < 0 then s
  else
    let pages := if s.pages.length ≤ pn.toNat then optGrow s.pages (pn.toNat + 1) else s.pages
    let s1 : OptState := { pages := pages, currentPage := s.currentPage, sb := s.sb }
    let s2 := if pn ≠ s.currentPage then { optFlush s1 with currentPage := pn } else s1
    let text := trimSpace b.content
    if text = "" then s2
    else if s2.sb ≠ "" then { s2 with sb := s2.sb ++ "\n\n" ++ text }
    else { s2 with sb := text }

/-- The pages array built by ConvertToOptimizedPagesJSON before it is
marshalled: clamp a negative page count to zero, sort, run the loop, and
flush the final page. -/
def convertToOptimizedPages (blocks : List TextBlock) (pageCount : Int) : List String :=
  let pc := if pageCount < 0 then 0 else pageCount
  let init : OptState := { pages := List.replicate pc.toNat "", currentPage := -1, sb := "" }
  (optFlush ((sortBlocks blocks).foldl optStep init)).pages

/-- How one block extends the pending text of its page: blank blocks are
skipped, later blocks are appended after a blank line. -/
def joinStep (acc : String) (t : String) : String :=
  if t = "" then acc else if acc ≠ "" then acc ++ "\n\n" ++ t else t

/-- The pending text of page p after folding a block list over an initial
builder value. -/
def pageAcc (l : List TextBlock) (p : Int) (acc : String) : String :=
  l.foldl (fun a b => if b.pageNumber = p then joinStep a (trimSpace b.content) else a) acc

/-- The final text of page p: its blocks (in list order) joined by blank
lines and trimmed. -/
def pageConcat (l : List TextBlock) (p : Int) : String :=
  trimSpace (pageAcc l p "")

/-- The page-number weight of one block: its 1-based page number, or 0 for
the non-positive page numbers the loop skips. -/
def pageNat (b : TextBlock) : Nat :=
  if 1 ≤ b.pageNumber then b.pageNumber.toNat else 0

/-- The highest 1-based page number observed among the blocks (blocks with
a non-positive page number are skipped by the loop and do not count). -/
def maxObservedPage (l : List TextBlock) : Nat :=
  l.foldl (fun m b => max m (pageNat b)) 0

/-- Go json.Marshal of a []string built by make (never nil, so never the
null encoding): a compact bracketed array of the quoted entries. -/
def jsonMarshalStringArray (pages : List String) : List Char :=
  '[' :: (List.intercalate [','] (pages.map (fun p => jsonQuote p.data)) ++ [']'])

/-- strings.ReplaceAll(s, backslash-u0000, ""): removes each leftmost
non-overlapping occurrence of the six-character literal, resuming the scan
after the removed text. -/
def removeLitU0000 : List Char → List Char
  | '\\' :: 'u' :: '0' :: '0' :: '0' :: '0' :: rest => removeLitU0000 rest
  | c :: rest => c :: removeLitU0000 rest
  | [] => []

/-- strings.ReplaceAll(s, backslash-u000, ""): removes each leftmost
non-overlapping occurrence of the five-character literal. -/
def removeLitU000 : List Char → List Char
  | '\\' :: 'u' :: '0' :: '0' :: '0' :: rest => removeLitU000 rest
  | c :: rest => c :: removeLitU000 rest
  | [] => []

/-- The whitespace Go encoding/json skips between tokens. -/
def skipWS : List Char → List Char
  | c :: rest =>
    if c = ' ' ∨ c = '\t' ∨ c = '\n' ∨ c = '\r' then skipWS rest else c :: rest
  | [] => []

/-- One JSON string literal scanned by Go json.Unmarshal inside a larger
value, after its opening quote: the decoded characters and the input after
the closing quote, or none exactly when Go reports an error (unterminated
literal, bad escape, raw control character).  Escape and surrogate
handling is that of jsonUnescapeAux. -/
def jsonScanString : Nat → List Char → Option (List Char × List Char)
  | 0, _ => none
  | _ + 1, [] => none
  | _ + 1, '"' :: rest => some ([], rest)
  | fuel + 1, '\\' :: 'u' :: h1 :: h2 :: h3 :: h4 :: rest2 =>
    (match hex4 h1 h2 h3 h4 with
    | none => none
    | some n =>
      if 0xD800 ≤ n ∧ n < 0xDC00 then
        match rest2 with
        | '\\' :: 'u' :: g1 :: g2 :: g3 :: g4 :: rest3 =>
          (match hex4 g1 g2 g3 g4 with
          | some m =>
            if 0xDC00 ≤ m ∧ m < 0xE000 then
              (jsonScanString fuel rest3).map
                (fun p =>
                  (charOfCodePoint (0x10000 + (n - 0xD800) * 1024 + (m - 0xDC00)) :: p.1, p.2))
            else (jsonScanString fuel ('\\' :: 'u' :: g1 :: g2 :: g3 :: g4 :: rest3)).map
              (fun p => ('�' :: p.1, p.2))
          | none => (jsonScanString fuel ('\\' :: 'u' :: g1 :: g2 :: g3 :: g4 :: rest3)).map
              (fun p => ('�' :: p.1, p.2)))
        | r => (jsonScanString fuel r).map (fun p => ('�' :: p.1, p.2))
      else if 0xDC00 ≤ n ∧ n < 0xE000 then
        (jsonScanString fuel rest2).map (fun p => ('�' :: p.1, p.2))
      else
        (jsonScanString fuel rest2).map (fun p => (charOfCodePoint n :: p.1, p.2)))
  | fuel + 1, '\\' :: e :: rest1 =>
    if e = '"' then (jsonScanString fuel rest1).map (fun p => ('"' :: p.1, p.2))
    else if e = '\\' then (jsonScanString fuel rest1).map (fun p => ('\\' :: p.1, p.2))
    else if e = '/' then (jsonScanString fuel rest1).map (fun p => ('/' :: p.1, p.2))
    else if e = 'b' then (jsonScanString fuel rest1).map (fun p => ('\x08' :: p.1, p.2))
    else if e = 'f' then (jsonScanString fuel rest1).map (fun p => ('\x0C' :: p.1, p.2))
    else if e = 'n' then (jsonScanString fuel rest1).map (fun p => ('\n' :: p.1, p.2))
    else if e = 'r' then (jsonScanString fuel rest1).map (fun p => ('\r' :: p.1, p.2))
    else if e = 't' then (jsonScanString fuel rest1).map (fun p => ('\t' :: p.1, p.2))
    else none
  | fuel + 1, c :: rest =>
    if c.val < 0x20 then none
    else (jsonScanString fuel rest).map (fun p => (c :: p.1, p.2))

/-- The elements of a JSON array decoded by Go json.Unmarshal into a
[]string, starting just before the first element: every element must be a
string literal and the list must close with a bracket; anything else —
including a non-string element, which makes Unmarshal return an
UnmarshalTypeError — is an error.  Each element consumes at least two
input characters, so a budget of one more than the input length is never
exhausted. -/
def jsonScanArrayElems : Nat → List Char → Option (List String × List Char)
  | 0, _ => none
  | fuel + 1, l =>
    match skipWS l with
    | '"' :: rest =>
      match jsonScanString (rest.length + 1) rest with
      | none => none
      | some (s, rest2) =>
        match skipWS rest2 with
        | ',' :: rest3 => (jsonScanArrayElems fuel rest3).map (fun p => (⟨s⟩ :: p.1, p.2))
        | ']' :: rest3 => some ([⟨s⟩], rest3)
        | _ => none
    | _ => none

/-- Go json.Unmarshal of a byte slice into a []string variable: a bracketed
list of string literals with nothing but whitespace after it. -/
def jsonUnmarshalStringArray (l : List Char) : Option (List String) :=
  match skipWS l with
  | '[' :: rest =>
    match skipWS rest with
    | ']' :: rest2 => if (skipWS rest2).isEmpty then some [] else none
    | r =>
      match jsonScanArrayElems (r.length + 1) r with
      | some (ss, rest2) => if (skipWS rest2).isEmpty then some ss else none
      | none => none
  | _ => none

/-- PDFProcessor.ConvertToOptimizedPagesJSON: the page slice built by the
cursor/builder loop, marshalled to JSON, passed through the
PostgreSQL-safe cleanup (the control-escape and surrogate-escape regexes,
NUL removal, and the literal backslash-u0000 and backslash-u000
removals), verified by unmarshalling into a []string — returning the
two-character empty array when verification fails — then re-marshalled
and re-cleaned.  json.Marshal of a []string never errors, so the
marshal-error branches are dead. -/
def convertToOptimizedPagesJSON (blocks : List TextBlock) (pageCount : Int) : List Char :=
  let pages := convertToOptimizedPages blocks pageCount
  let jsonStr := jsonMarshalStringArray pages
  let jsonStr := removeControlEscapes jsonStr
  let jsonStr := removeSurrogateEscapes jsonStr
  let jsonStr := jsonStr.filter (fun c => c.val ≠ 0)
  let jsonStr := removeLitU0000 jsonStr
  let jsonStr := removeLitU000 jsonStr
  match jsonUnmarshalStringArray jsonStr with
  | none => ['[', ']']
  | some verify =>
    let finalStr := jsonMarshalStringArray verify
    let finalStr := removeControlEscapes finalStr
    let finalStr := removeSurrogateEscapes finalStr
    finalStr.filter (fun c => c.val ≠ 0)

/-! ## Document lifecycle writes (DocumentService.Upload / processAndUpdate)

The observable lifecycle of a document row is the sequence of row writes
the upload path performs: the initial Create, the throttled intermediate
updates issued from the onPage callback, and the terminal update. -/

/-- One write of the document row: the processing status it stores, whether
it stamps processedAt, and the processing error it stores. -/
structure DocWrite where
  status : String
  processedAtSet : Bool
  processingError : Option String
deriving DecidableEq, Repr

/-- The throttling of intermediate writes: given the onPage page numbers in
call order and the last page that triggered a write, the pages that trigger
an intermediate write (page 1, then every twelfth page). -/
def interPages : List Int → Int → List Int
  | [], _ => []
  | i :: rest, last =>
    if i = 1 ∨ 12 ≤ i - last then i :: interPages rest i else interPages rest last

/-- The document-row writes performed by Upload and processAndUpdate for
one upload, in program order: the Create with status processing, then, if
opening the PDF failed, the terminal failed write; otherwise the throttled
intermediate processing writes followed by the terminal ready write that
stamps processedAt.  (Intermediate writes marshal the partial pages array;
json.Marshal of a string slice never fails, and a failed intermediate
row update is ignored without retry, so the attempted writes are exactly
these.) -/
def uploadWrites (openResult : Except String PDFDoc) : List DocWrite :=
  ⟨"processing", false, none⟩ ::
  (match openResult with
  | .error msg => [⟨"failed", false, some msg⟩]
  | .ok doc =>
    let trace := (processPDF doc).2.2
    (interPages (trace.map Prod.fst) 0).map (fun _ => ⟨"processing", false, none⟩)
      ++ [⟨"ready", true, none⟩])

/-! ## Subscription gate and chat domain types (internal/domain, ai_service) -/

/-- Modelled from the spec: the UserPreferences row declaration carrying the
subscription fields is not among the provided sources (the sources only show
its readers).  The spec says the preferences collaborator maps an owner to a
subscription plan string with an absent row defaulting to the free plan, and
DocumentService.Upload additionally reads an explicit storage_limit_bytes
override that takes precedence when positive.  Only the two fields the
modelled services read are included. -/
structure UserPreferences where
  subscriptionPlan : String
  storageLimitBytes : Int
deriving DecidableEq, Repr

/-- UsageLedger row fields read by the quota gate. -/
structure UsageLedger where
  tokensIn : Int
  tokensOut : Int
deriving DecidableEq, Repr

/-- Modelled from the spec: the declarations of the domain error values
ErrPlanUpgradeRequired and ErrMonthlyTokenLimitHit are not among the
provided sources (only their uses in AIService are).  The spec requires
UpgradeRequired and QuotaExhausted to be distinct conditions, never
conflated with generic failure, so they are distinct constructors here and
every other error is a generic message. -/
inductive AskError where
  | upgradeRequired
  | quotaExhausted
  | other (msg : String)
deriving DecidableEq, Repr

/-- The effects AIService performs against its collaborators, in program
order. -/
inductive AskEffect where
  | getPreferences
  | getUsage
  | getSession
  | createSession
  | createMessage
  | embedQuery
  | vectorSearch
  | getPageText
  | getMessages
  | modelCall
  | incrementUsage
deriving DecidableEq, Repr

/-- The plan resolved by ensureAskAIEntitled: the preferences row's plan
when present and non-empty, else free. -/
def planOfPrefs (prefs : Option UserPreferences) : String :=
  match prefs with
  | some p => if p.subscriptionPlan ≠ "" then p.subscriptionPlan else "free"
  | none => "free"

/-- AIService.ensureAskAIEntitled: load preferences, resolve the plan, and
require the Ask AI feature on it.  The repository handle is always
configured in the deployed container, so the nil-repository guard is not
modelled. -/
def ensureAskAIEntitled (prefs : Except String (Option UserPreferences)) :
    Except AskError Unit :=
  match prefs with
  | .error e => .error (.other ("failed to load user preferences: " ++ e))
  | .ok po =>
    if ¬ AskAIEnabledForPlan (planOfPrefs po) then .error .upgradeRequired
    else .ok ()

/-! ## AIService.IngestDocument -/

/-- A document_pages row: unique per (documentID, pageNumber). -/
structure PageRow where
  documentID : String
  pageNumber : Int
  text : String
deriving DecidableEq, Repr

/-- A page_embeddings row (the vector itself is irrelevant to the verified
properties; one chunk per page, chunkIndex 0). -/
structure EmbeddingRow where
  documentID : String
  pageNumber : Int
  chunkIndex : Int
deriving DecidableEq, Repr

/-- The retrieval tables. -/
structure RetrievalDB where
  pageRows : List PageRow
  embRows : List EmbeddingRow
deriving DecidableEq, Repr

/-- AIRepository.DeleteByDocumentID: delete the embeddings and then the
pages of the document. -/
def DeleteByDocumentID (db : RetrievalDB) (documentID : String) : RetrievalDB :=
  { pageRows := db.pageRows.filter (fun r => r.documentID ≠ documentID)
    embRows := db.embRows.filter (fun r => r.documentID ≠ documentID) }

/-- AIRepository.SavePage: an upsert on (document_id, page_number) — a row
with the same key is overwritten in place (keeping its position, as an
UPDATE does), otherwise the new row is inserted. -/
def savePageUpsert (rows : List PageRow) (row : PageRow) : List PageRow :=
  if rows.any (fun r => r.documentID = row.documentID ∧ r.pageNumber = row.pageNumber) then
    rows.map (fun r =>
      if r.documentID = row.documentID ∧ r.pageNumber = row.pageNumber then row else r)
  else rows ++ [row]

/-- The jobs loop of IngestDocument: 1-based page numbers of the non-blank
optimized pages, with their text. -/
def ingestJobsAux : List String → Nat → List (Int × String)
  | [], _ => []
  | p :: rest, i =>
    if trimSpace p = "" then ingestJobsAux rest (i + 1)
    else ((i : Int) + 1, p) :: ingestJobsAux rest (i + 1)

def ingestJobs (optPages : List String) : List (Int × String) :=
  ingestJobsAux optPages 0

/-- AIService.IngestDocument at the level of the retrieval tables.

The per-collaborator outcomes are oracles: deleteOk is the cleanup call
(its failure is only warn-logged and the run continues — the source keeps
whatever the failed delete left, modelled as the unchanged tables); saveOk
p is whether the SavePage upsert of page p succeeded (a failure is logged
and the page is skipped); embedOk p is whether an embedding for page p was
produced and stored (an embedding failure, an empty vector, and a failed
embedding insert all leave no row).  Pages go through the SavePage upsert
on (document_id, page_number); embeddings go through the plain
SaveEmbedding insert.  The two phases run under bounded concurrency; the
upserted keys of one run are pairwise distinct and inserts only append, so
the tables do not depend on the interleaving and the rows are listed in
job order. -/
def IngestDocument (db : RetrievalDB) (prefs : Except String (Option UserPreferences))
    (optPages : Except String (Option (List String))) (documentID : String)
    (deleteOk : Bool) (saveOk embedOk : Int → Bool) :
    Except AskError RetrievalDB :=
  match ensureAskAIEntitled prefs with
  | .error e => .error e
  | .ok _ =>
    match optPages with
    | .error e => .error (.other ("failed to get optimized document: " ++ e))
    | .ok po =>
      match po with
      | none => .error (.other "document has no content to ingest")
      | some pages =>
        if pages.isEmpty then .error (.other "document has no content to ingest")
        else
          let db1 := if deleteOk then DeleteByDocumentID db documentID else db
          let jobs := ingestJobs pages
          let savedJobs := jobs.filter (fun j => saveOk j.1)
          let pageRows2 := savedJobs.foldl
            (fun rows j => savePageUpsert rows ⟨documentID, j.1, j.2⟩) db1.pageRows
          let embedded := savedJobs.filter (fun j => embedOk j.1)
          .ok { pageRows := pageRows2
                embRows := db1.embRows ++ embedded.map (fun j => ⟨documentID, j.1, 0⟩) }

/-! ## AIService.Ask and its quota gate -/

/-- AIService.ensureAskAIWithinQuota: entitlement first, then the fixed
monthly budget resolved for the literal plan string pro_monthly, then the
current-month ledger row; consumed-at-or-above-budget fails with the
quota-exhausted error.  Returns (monthlyLimit, tokensUsedSoFar) on
admission, paired with the collaborator effects in call order. -/
def ensureAskAIWithinQuota (prefs : Except String (Option UserPreferences))
    (usage : Except String (Option UsageLedger)) :
    Except AskError (Int × Int) × List AskEffect :=
  match ensureAskAIEntitled prefs with
  | .error e => (.error e, [.getPreferences])
  | .ok _ =>
    -- the source resolves the quota for pro_monthly for every entitled plan
    let limit := MonthlyAITokenLimitForPlan "pro_monthly"
    if limit ≤ 0 then (.error .upgradeRequired, [.getPreferences])
    else
      match usage with
      | .error e => (.error (.other ("failed to load usage: " ++ e)), [.getPreferences, .getUsage])
      | .ok ledger =>
        let used := match ledger with
          | some l => l.tokensIn + l.tokensOut
          | none => 0
        if limit ≤ used then (.error .quotaExhausted, [.getPreferences, .getUsage])
        else (.ok (limit, used), [.getPreferences, .getUsage])

/-- A similarity-search hit as consumed by Ask.  The similarity score is
omitted: ordering is done by the search collaborator and the score is never
read by the context assembly. -/
structure SearchResult where
  pageID : String
  pageNumber : Int
  text : String
deriving DecidableEq, Repr

/-- ChatRequest DTO fields read by Ask. -/
structure ChatRequest where
  sessionID : String
  documentID : String
  prompt : String
  currentPage : Option Int
  totalPages : Option Int
deriving DecidableEq, Repr

/-- ChatResponse DTO. -/
structure ChatResponse where
  sessionID : String
  message : String
  citations : List Int
deriving DecidableEq, Repr

/-- One group of contextBuilder writes inside Ask, in write order: the
labeled full text of the pinned current page, the you-are-viewing note, the
additional-context header, one labeled search hit, or the fixed answering
rules. -/
inductive ContextItem where
  | currentPageBlock (pageNumber : Int) (text : String)
  | viewingNote (pageNumber : Int) (totalPages : Option Int)
  | additionalContextHeader
  | hit (pageNumber : Int) (text : String)
  | rules
deriving DecidableEq, Repr

/-- The page numbers whose text the assembled context contains. -/
def contextPages (items : List ContextItem) : List Int :=
  items.filterMap (fun it =>
    match it with
    | .currentPageBlock p _ => some p
    | .hit p _ => some p
    | _ => none)

/-- The context-assembly section of Ask: given the request's currentPage
and totalPages, the result of the GetPageText fetch for the pinned page
(only consulted when a positive current page is supplied), and the
similarity hits, produce the context writes and the citations list exactly
as the two loops in the source do: the pinned page is included and cited
first only when its fetch succeeded with non-blank text; every hit whose
page number equals the pinned page is skipped. -/
def assembleContext (currentPage totalPages : Option Int)
    (fetchCurrent : Except String String) (results : List SearchResult) :
    List ContextItem × List Int :=
  let lead : List ContextItem × List Int :=
    match currentPage with
    | some k =>
      if 0 < k then
        let withText : List ContextItem × List Int :=
          match fetchCurrent with
          | .ok t => if trimSpace t ≠ "" then ([.currentPageBlock k t], [k]) else ([], [])
          | .error _ => ([], [])
        (withText.1 ++ [.viewingNote k totalPages], withText.2)
      else ([], [])
    | none => ([], [])
  let kept := results.filter (fun r =>
    match currentPage with
    | some k => r.pageNumber ≠ k
    | none => true)
  (lead.1 ++ [.additionalContextHeader] ++ kept.map (fun r => .hit r.pageNumber r.text) ++ [.rules],
   lead.2 ++ kept.map (fun r => r.pageNumber))

/-- The model reply fields Ask reads.  The empty-candidates case, which Ask
turns into an error after the call, is represented as an error outcome of
the oracle. -/
structure ModelReply where
  answer : String
  promptTokenCount : Int
  candidatesTokenCount : Int
  totalTokenCount : Int
deriving DecidableEq, Repr

/-- The collaborator outcomes one Ask call can observe, one oracle per
external call site. -/
structure AskEnv where
  prefs : Except String (Option UserPreferences)
  usage : Except String (Option UsageLedger)
  sessionOwner : Except String String
  newSessionID : Except String String
  queryEmbedding : Except String Unit
  searchResults : Except String (List SearchResult)
  pageText : Except String String
  history : Except String Unit
  modelReply : Except String ModelReply
deriving Repr

/-- AIService.Ask: quota gate, session resolution, user-turn insert, query
embedding, similarity search (a failure is only logged and yields no
hits), context assembly, history load, model call, model-turn insert and
usage increment.  Returns the result together with the collaborator
effects in call order.  The history rows only populate the model prompt
(the just-inserted user turn is skipped by message id); no verified claim
reads the prompt, so the history content is not reproduced here. -/
def Ask (env : AskEnv) (userID : String) (req : ChatRequest) :
    Except AskError ChatResponse × List AskEffect :=
  match ensureAskAIWithinQuota env.prefs env.usage with
  | (.error e, effs) => (.error e, effs)
  | (.ok _limitUsed, gateEffs) =>
    let sessionStep : Except AskError String × List AskEffect :=
      if req.sessionID ≠ "" then
        match env.sessionOwner with
        | .error e => (.error (.other ("invalid session: " ++ e)), [.getSession])
        | .ok owner =>
          if owner ≠ userID then (.error (.other "access denied"), [.getSession])
          else (.ok req.sessionID, [.getSession])
      else
        match env.newSessionID with
        | .error e => (.error (.other ("failed to create session: " ++ e)), [.createSession])
        | .ok sid => (.ok sid, [.createSession])
    match sessionStep with
    | (.error e, sessEffs) => (.error e, gateEffs ++ sessEffs)
    | (.ok sessionID, sessEffs) =>
      -- user turn persisted best-effort: a failure is only logged
      let effs1 := gateEffs ++ sessEffs ++ [.createMessage]
      match env.queryEmbedding with
      | .error e => (.error (.other ("failed to embed query: " ++ e)), effs1 ++ [.embedQuery])
      | .ok _ =>
        let effs2 := effs1 ++ [.embedQuery, .vectorSearch]
        let searchResults := match env.searchResults with
          | .ok rs => rs
          | .error _ => []   -- search failure is only logged; no hits
        let fetchedPage := 0 < (req.currentPage.getD 0)
        let effs3 := if fetchedPage then effs2 ++ [.getPageText] else effs2
        let assembled := assembleContext req.currentPage req.totalPages env.pageText searchResults
        let citations := assembled.2
        let effs4 := effs3 ++ [.getMessages]
        match env.modelReply with
        | .error e => (.error (.other ("gemini call failed: " ++ e)), effs4 ++ [.modelCall])
        | .ok reply =>
          (.ok ⟨sessionID, reply.answer, citations⟩,
           effs4 ++ [.modelCall, .createMessage, .incrementUsage])

/-! ## DocumentService.Upload storage gate -/

/-- The fields of an existing document row that the storage-usage sum
reads. -/
structure DocRow where
  originalSizeBytes : Option Int
  metadataFileSize : Int
deriving DecidableEq, Repr

/-- The storage-quota resolution at the top of Upload: the free-plan
default, overridden from the preferences row when it loads — an explicit
positive storage_limit_bytes wins, else the plan quota. -/
def resolveMaxUserStorage (prefs : Except String (Option UserPreferences)) : Int :=
  match prefs with
  | .ok (some p) =>
    if 0 < p.storageLimitBytes then p.storageLimitBytes
    else StorageLimitBytesForPlan p.subscriptionPlan
  | _ => StorageLimitBytesForPlan "free"

/-- The current-usage sum over the owner's existing documents: the stored
original size when present and positive, else the metadata file size. -/
def currentStorageUsage (docs : List DocRow) : Int :=
  docs.foldl
    (fun acc d =>
      match d.originalSizeBytes with
      | some s => if 0 < s then acc + s else acc + d.metadataFileSize
      | none => acc + d.metadataFileSize)
    0

/-- The failure cases of the upload path up to the document-row insert. -/
inductive UploadError where
  | usageLookupFailed (msg : String)
  | storageLimitExceeded (used limit : Int)
  | storagePutFailed (msg : String)
  | createFailed (msg : String)
deriving DecidableEq, Repr

/-- The external calls Upload performs up to the document-row insert. -/
inductive UploadEffect where
  | getPreferences
  | getUserDocuments
  | storagePut
  | createDocumentRow
deriving DecidableEq, Repr

/-- Collaborator outcomes for one Upload call. -/
structure UploadEnv where
  prefs : Except String (Option UserPreferences)
  existingDocs : Except String (List DocRow)
  storagePut : Except String Unit
  createRow : Except String Unit
deriving Repr

/-- DocumentService.Upload up to (and including) the document-row insert:
resolve the quota from preferences (a load failure silently keeps the free
default), sum the owner's existing usage, reject the upload before any
write when it would exceed the quota, then write the object and create the
row in processing state.  The subsequent processing writes are uploadWrites.
Returns the result with the effects in call order. -/
def UploadGate (env : UploadEnv) (totalSize : Int) :
    Except UploadError Unit × List UploadEffect :=
  let maxUserStorage := resolveMaxUserStorage env.prefs
  match env.existingDocs with
  | .error e => (.error (.usageLookupFailed e), [.getPreferences, .getUserDocuments])
  | .ok docs =>
    let currentUsage := currentStorageUsage docs
    if maxUserStorage < currentUsage + totalSize then
      (.error (.storageLimitExceeded currentUsage maxUserStorage),
       [.getPreferences, .getUserDocuments])
    else
      match env.storagePut with
      | .error e =>
        (.error (.storagePutFailed e), [.getPreferences, .getUserDocuments, .storagePut])
      | .ok _ =>
        match env.createRow with
        | .error e =>
          (.error (.createFailed e),
           [.getPreferences, .getUserDocuments, .storagePut, .createDocumentRow])
        | .ok _ =>
          (.ok (), [.getPreferences, .getUserDocuments, .storagePut, .createDocumentRow])

/-! ## Shared helper definitions for the theorems -/

/-- Tokens consumed so far as the quota gate computes them from the loaded
ledger row (an absent row counts as zero). -/
def usedTokens (ledger : Option UsageLedger) : Int :=
  match ledger with
  | some l => l.tokensIn + l.tokensOut
  | none => 0

/-- The page rows of one document. -/
def pagesOfDoc (db : RetrievalDB) (documentID : String) : List PageRow :=
  db.pageRows.filter (fun r => r.documentID = documentID)

/-- The embedding rows of one document. -/
def embsOfDoc (db : RetrievalDB) (documentID : String) : List EmbeddingRow :=
  db.embRows.filter (fun r => r.documentID = documentID)

/-- The hits Ask iterates over: the search result, or no hits when the
search failed (the failure is only logged). -/
def searchResultsOf (env : AskEnv) : List SearchResult :=
  match env.searchResults with
  | .ok rs => rs
  | .error _ => []

/-- An intermediate document-row write. -/
def processingWrite : DocWrite :=
  ⟨"processing", false, none⟩

/-- The terminal document-row write of an upload. -/
def terminalWrite (openResult : Except String PDFDoc) : DocWrite :=
  match openResult with
  | .error msg => ⟨"failed", false, some msg⟩
  | .ok _ => ⟨"ready", true, none⟩

/-- Sample collaborator outcomes used by the witness theorems. -/
def sampleAskEnv : AskEnv :=
  { prefs := .ok none
    usage := .ok none
    sessionOwner := .ok "user-1"
    newSessionID := .ok "session-1"
    queryEmbedding := .ok ()
    searchResults := .ok []
    pageText := .ok ""
    history := .ok ()
    modelReply := .ok ⟨"answer", 10, 20, 30⟩ }

/-- Sample chat request used by the witness theorems. -/
def sampleReq : ChatRequest :=
  { sessionID := ""
    documentID := "doc-1"
    prompt := "what is this about?"
    currentPage := none
    totalPages := none }

/-! ## C8 -/

/-- C8: the claim says sanitizeText is idempotent and only ever removes
characters.  The code violates both parts: on the eight-character input
a backslash u 0 0 1 f b the second pass JSON-escapes the backslash, the
control-escape regexp then consumes the text u001f together with the
escaping backslash, and the unmarshal turns the remaining backslash-b into
a backspace — a character that does not occur in the input — while the
trailing b is swallowed; sanitizing the result again removes the backspace,
so the two iterates differ. -/
theorem sanitizeText_corrupts_and_is_not_idempotent :
    sanitizeText ⟨['a', '\\', 'u', '0', '0', '1', 'f', 'b']⟩ = ⟨['a', '\x08']⟩ ∧
    sanitizeText (sanitizeText ⟨['a', '\\', 'u', '0', '0', '1', 'f', 'b']⟩) = "a" ∧
    sanitizeText (sanitizeText ⟨['a', '\\', 'u', '0', '0', '1', 'f', 'b']⟩) ≠
      sanitizeText ⟨['a', '\\', 'u', '0', '0', '1', 'f', 'b']⟩ ∧
    '\x08' ∉ (⟨['a', '\\', 'u', '0', '0', '1', 'f', 'b']⟩ : String).data := by
  decide

/-! ## C5 -/

/-- C5: a chat turn by an owner whose preferences row is absent or whose
plan lacks the assistant feature fails with the distinct UpgradeRequired
error after only the preferences lookup: no usage lookup, no model call,
and no usage increment is performed, so the monthly ledger row is neither
created nor touched. -/
theorem ask_free_plan_upgradeRequired_before_usage (env : AskEnv) (userID : String)
    (req : ChatRequest) (po : Option UserPreferences) (hprefs : env.prefs = .ok po)
    (hplan : AskAIEnabledForPlan (planOfPrefs po) = false) :
    (Ask env userID req).1 = .error .upgradeRequired ∧
    (Ask env userID req).2 = [.getPreferences] ∧
    AskEffect.getUsage ∉ (Ask env userID req).2 ∧
    AskEffect.modelCall ∉ (Ask env userID req).2 ∧
    AskEffect.incrementUsage ∉ (Ask env userID req).2 := by
  simp [Ask, ensureAskAIWithinQuota, ensureAskAIEntitled, hprefs, hplan]

theorem ask_free_plan_upgradeRequired_before_usage_witness :
    (Ask sampleAskEnv "user-1" sampleReq).1 = .error .upgradeRequired ∧
    AskEffect.getUsage ∉ (Ask sampleAskEnv "user-1" sampleReq).2 ∧
    AskEffect.modelCall ∉ (Ask sampleAskEnv "user-1" sampleReq).2 :=
  have h := ask_free_plan_upgradeRequired_before_usage sampleAskEnv "user-1" sampleReq none
    rfl (by decide)
  ⟨h.1, h.2.2.1, h.2.2.2.1⟩

/-! ## C7 -/

/-- When the quota gate admits the turn, every effect Ask goes on to
perform comes after the two gate effects. -/
theorem Ask_effects_extend_gate_effects (env : AskEnv) (userID : String) (req : ChatRequest)
    (res : Int × Int)
    (hg : ensureAskAIWithinQuota env.prefs env.usage =
      (.ok res, [.getPreferences, .getUsage])) :
    (Ask env userID req).2.take 2 = [.getPreferences, .getUsage] := by
  unfold Ask
  rw [hg]
  by_cases hs : req.sessionID = "" <;>
    rcases hso : env.sessionOwner with em | owner <;>
    rcases hns : env.newSessionID with em2 | sid <;>
    rcases hqe : env.queryEmbedding with em3 | uu <;>
    rcases hmr : env.modelReply with em4 | rep <;>
      simp only [hs, hso, hns, hqe, hmr, ne_eq, ite_true, ite_false, not_true, not_false_iff,
        if_true, if_false] <;>
      (try split_ifs) <;>
      simp [List.take]

/-- C7: for an entitled owner the quota gate loads the current-month
ledger row before any model call and fails with the distinct QuotaExhausted
error exactly when the consumed tokens (tokensIn plus tokensOut, zero for
an absent row) reach the monthly budget of 500000; strictly below the
budget the turn is admitted. -/
theorem quota_gate_exhausted_iff_budget_reached (env : AskEnv) (userID : String)
    (req : ChatRequest) (po : Option UserPreferences) (lo : Option UsageLedger)
    (hprefs : env.prefs = .ok po) (hplan : AskAIEnabledForPlan (planOfPrefs po) = true)
    (husage : env.usage = .ok lo) :
    ((ensureAskAIWithinQuota env.prefs env.usage).1 = .error .quotaExhausted ↔
      500000 ≤ usedTokens lo) ∧
    (usedTokens lo < 500000 →
      (ensureAskAIWithinQuota env.prefs env.usage).1 = .ok (500000, usedTokens lo)) ∧
    (ensureAskAIWithinQuota env.prefs env.usage).2 = [.getPreferences, .getUsage] ∧
    AskEffect.modelCall ∉ (ensureAskAIWithinQuota env.prefs env.usage).2 ∧
    (Ask env userID req).2.take 2 = [.getPreferences, .getUsage] := by
  have hlim : MonthlyAITokenLimitForPlan "pro_monthly" = 500000 := by decide
  have hgate :
      ensureAskAIWithinQuota env.prefs env.usage =
        (if 500000 ≤ usedTokens lo then (.error .quotaExhausted, [.getPreferences, .getUsage])
         else (.ok (500000, usedTokens lo), [.getPreferences, .getUsage])) := by
    simp [ensureAskAIWithinQuota, ensureAskAIEntitled, hprefs, hplan, husage, hlim, usedTokens]
  refine ⟨?_, ?_, ?_, ?_, ?_⟩
  · rw [hgate]
    by_cases h : 500000 ≤ usedTokens lo <;> simp [h]
  · intro h
    rw [hgate]
    simp [not_le.mpr h]
  · rw [hgate]
    by_cases h : 500000 ≤ usedTokens lo <;> simp [h]
  · rw [hgate]
    by_cases h : 500000 ≤ usedTokens lo <;> simp [h]
  · by_cases h : 500000 ≤ usedTokens lo
    · unfold Ask
      rw [hgate]
      simp [h]
    · have hg2 : ensureAskAIWithinQuota env.prefs env.usage =
          (.ok (500000, usedTokens lo), [.getPreferences, .getUsage]) := by
        rw [hgate, if_neg h]
      exact Ask_effects_extend_gate_effects env userID req (500000, usedTokens lo) hg2

theorem quota_gate_exhausted_iff_budget_reached_witness :
    (ensureAskAIWithinQuota (.ok (some ⟨"pro_yearly", 0⟩)) (.ok (some ⟨400000, 100000⟩))).1 =
      .error .quotaExhausted ∧
    (ensureAskAIWithinQuota (.ok (some ⟨"pro_yearly", 0⟩)) (.ok (some ⟨1, 2⟩))).1 =
      .ok (500000, 3) := by
  constructor
  · have h := quota_gate_exhausted_iff_budget_reached
      ({ sampleAskEnv with prefs := .ok (some ⟨"pro_yearly", 0⟩), usage := .ok (some ⟨400000, 100000⟩) })
      "user-1" sampleReq (some ⟨"pro_yearly", 0⟩) (some ⟨400000, 100000⟩) rfl (by decide) rfl
    exact h.1.mpr (by decide)
  · have h := quota_gate_exhausted_iff_budget_reached
      { sampleAskEnv with prefs := .ok (some ⟨"pro_yearly", 0⟩), usage := .ok (some ⟨1, 2⟩) }
      "user-1" sampleReq (some ⟨"pro_yearly", 0⟩) (some ⟨1, 2⟩) rfl (by decide) rfl
    exact h.2.1 (by decide)

/-! ## C9 -/

/-- C9: the monthly budget the quota gate applies is the one resolved for
the literal plan string pro_monthly — the fixed constant 500000 — for every
entitled plan the owner may actually have, and every entitled plan resolves
to that same constant. -/
theorem quota_budget_ignores_owner_plan (env : AskEnv) (po : Option UserPreferences)
    (lo : Option UsageLedger) (hprefs : env.prefs = .ok po)
    (hplan : AskAIEnabledForPlan (planOfPrefs po) = true) (husage : env.usage = .ok lo) :
    MonthlyAITokenLimitForPlan "pro_monthly" = 500000 ∧
    (∀ plan, AskAIEnabledForPlan plan = true → MonthlyAITokenLimitForPlan plan = 500000) ∧
    (usedTokens lo < 500000 →
      (ensureAskAIWithinQuota env.prefs env.usage).1 =
        .ok (MonthlyAITokenLimitForPlan "pro_monthly", usedTokens lo)) ∧
    (500000 ≤ usedTokens lo →
      (ensureAskAIWithinQuota env.prefs env.usage).1 = .error .quotaExhausted) := by
  have hlim : MonthlyAITokenLimitForPlan "pro_monthly" = 500000 := by decide
  refine ⟨by decide, ?_, ?_, ?_⟩
  · intro plan h
    simp [MonthlyAITokenLimitForPlan, h]
  · intro h
    cases lo with
    | none =>
      simp [ensureAskAIWithinQuota, ensureAskAIEntitled, hprefs, hplan, husage, hlim, usedTokens]
    | some l =>
      simp only [usedTokens] at h
      simp [ensureAskAIWithinQuota, ensureAskAIEntitled, hprefs, hplan, husage, hlim,
        usedTokens, not_le.mpr h]
  · intro h
    cases lo with
    | none => simp [usedTokens] at h
    | some l =>
      simp only [usedTokens] at h
      simp [ensureAskAIWithinQuota, ensureAskAIEntitled, hprefs, hplan, husage, hlim,
        usedTokens, h]

theorem quota_budget_ignores_owner_plan_witness :
    MonthlyAITokenLimitForPlan "founder_lifetime" = 500000 ∧
    (ensureAskAIWithinQuota (.ok (some ⟨"founder_lifetime", 0⟩)) (.ok none)).1 =
      .ok (MonthlyAITokenLimitForPlan "pro_monthly", 0) := by
  have h := quota_budget_ignores_owner_plan
    { sampleAskEnv with prefs := .ok (some ⟨"founder_lifetime", 0⟩), usage := .ok none }
    (some ⟨"founder_lifetime", 0⟩) none rfl (by decide) rfl
  exact ⟨h.2.1 "founder_lifetime" (by decide), h.2.2.1 (by decide)⟩

/-! ## C10 -/

/-- C10: an upload whose size added to the owner's current stored bytes
exceeds the resolved per-plan storage limit (15MiB for the free plan or
absent preferences, decimal 50GB for the paid plans, or a positive explicit
per-user override) fails with the storage-limit-exceeded error after only
the preferences and document lookups: the object is never written to
storage and no document row is created. -/
theorem upload_over_quota_fails_before_writes (env : UploadEnv) (totalSize : Int)
    (docs : List DocRow) (hdocs : env.existingDocs = .ok docs)
    (hover : resolveMaxUserStorage env.prefs < currentStorageUsage docs + totalSize) :
    (UploadGate env totalSize).1 =
      .error (.storageLimitExceeded (currentStorageUsage docs) (resolveMaxUserStorage env.prefs)) ∧
    (UploadGate env totalSize).2 = [.getPreferences, .getUserDocuments] ∧
    UploadEffect.storagePut ∉ (UploadGate env totalSize).2 ∧
    UploadEffect.createDocumentRow ∉ (UploadGate env totalSize).2 ∧
    resolveMaxUserStorage (.ok none) = 15 * 1024 * 1024 ∧
    (∀ msg, resolveMaxUserStorage (.error msg) = 15 * 1024 * 1024) ∧
    (∀ p : UserPreferences, 0 < p.storageLimitBytes →
      resolveMaxUserStorage (.ok (some p)) = p.storageLimitBytes) ∧
    (∀ p : UserPreferences, p.storageLimitBytes ≤ 0 →
      resolveMaxUserStorage (.ok (some p)) = StorageLimitBytesForPlan p.subscriptionPlan) ∧
    StorageLimitBytesForPlan "free" = 15 * 1024 * 1024 ∧
    (∀ plan, plan = "pro_monthly" ∨ plan = "pro_yearly" ∨ plan = "founder_lifetime" →
      StorageLimitBytesForPlan plan = 50000000000) := by
  refine ⟨?_, ?_, ?_, ?_, by decide, ?_, ?_, ?_, by decide, ?_⟩
  · simp [UploadGate, hdocs, hover]
  · simp [UploadGate, hdocs, hover]
  · simp [UploadGate, hdocs, hover]
  · simp [UploadGate, hdocs, hover]
  · intro msg
    simp [resolveMaxUserStorage, StorageLimitBytesForPlan]
  · intro p hp
    simp [resolveMaxUserStorage, hp]
  · intro p hp
    simp [resolveMaxUserStorage, not_lt.mpr hp]
  · intro plan h
    simp [StorageLimitBytesForPlan, h]

theorem upload_over_quota_fails_before_writes_witness :
    (UploadGate
        { prefs := .ok none, existingDocs := .ok [⟨some 15000000, 15000000⟩],
          storagePut := .ok (), createRow := .ok () } 1000000).1 =
      .error (.storageLimitExceeded 15000000 (15 * 1024 * 1024)) ∧
    UploadEffect.storagePut ∉
      (UploadGate
        { prefs := .ok none, existingDocs := .ok [⟨some 15000000, 15000000⟩],
          storagePut := .ok (), createRow := .ok () } 1000000).2 :=
  have h := upload_over_quota_fails_before_writes
    { prefs := .ok none, existingDocs := .ok [⟨some 15000000, 15000000⟩],
      storagePut := .ok (), createRow := .ok () } 1000000 [⟨some 15000000, 15000000⟩]
    rfl (by decide)
  ⟨h.1, h.2.2.1⟩

/-! ## C3 -/

/-- The non-blank-page jobs are one per non-blank optimized page. -/
theorem ingestJobsAux_length (ps : List String) (i : Nat) :
    (ingestJobsAux ps i).length = (ps.filter (fun p => trimSpace p ≠ "")).length := by
  induction ps generalizing i with
  | nil => rfl
  | cons p rest ih =>
    by_cases h : trimSpace p = "" <;> simp [ingestJobsAux, h, ih]

/-- Rows kept because their document differs never survive a filter for
that document. -/
theorem filter_doc_of_filter_ne {α : Type} (l : List α) (f : α → String) (d : String) :
    ((l.filter (fun a => f a ≠ d)).filter (fun a => f a = d)) = [] := by
  induction l with
  | nil => rfl
  | cons a t ih => by_cases h : f a = d <;> simp [h, ih]

/-- Page rows freshly built for a document all survive a filter for it. -/
theorem filter_doc_map_pageRow (l : List (Int × String)) (d : String) :
    ((l.map (fun j => (⟨d, j.1, j.2⟩ : PageRow))).filter (fun r => r.documentID = d)) =
      l.map (fun j => (⟨d, j.1, j.2⟩ : PageRow)) := by
  induction l with
  | nil => rfl
  | cons a t ih => simp [ih]

/-- Embedding rows freshly built for a document all survive a filter for
it. -/
theorem filter_doc_map_embRow (l : List (Int × String)) (d : String) :
    ((l.map (fun j => (⟨d, j.1, 0⟩ : EmbeddingRow))).filter (fun r => r.documentID = d)) =
      l.map (fun j => (⟨d, j.1, 0⟩ : EmbeddingRow)) := by
  induction l with
  | nil => rfl
  | cons a t ih => simp [ih]

/-- A conjunctive filter never keeps more rows than its second conjunct
alone. -/
theorem length_filter_and_le {α : Type} (l : List α) (p q : α → Bool) :
    (l.filter (fun a => p a && q a)).length ≤ (l.filter q).length := by
  induction l with
  | nil => simp
  | cons a t ih => by_cases hq : q a <;> by_cases hp : p a <;> simp [hp, hq] <;> omega

/-- Every job page number exceeds the starting index. -/
theorem ingestJobsAux_page_lt (ps : List String) (i : Nat) :
    ∀ j ∈ ingestJobsAux ps i, (i : Int) < j.1 := by
  induction ps generalizing i with
  | nil => intro j hj; simp [ingestJobsAux] at hj
  | cons p rest ih =>
    intro j hj
    unfold ingestJobsAux at hj
    by_cases h : trimSpace p = ""
    · rw [if_pos h] at hj
      have := ih (i + 1) j hj
      push_cast at this ⊢
      omega
    · rw [if_neg h] at hj
      rcases List.mem_cons.mp hj with h1 | h1
      · subst h1
        show (i : Int) < (i : Int) + 1
        omega
      · have := ih (i + 1) j h1
        push_cast at this ⊢
        omega

/-- The job page numbers are strictly increasing, so pairwise distinct. -/
theorem ingestJobsAux_pairwise (ps : List String) (i : Nat) :
    (ingestJobsAux ps i).Pairwise (fun a b => a.1 < b.1) := by
  induction ps generalizing i with
  | nil => simp [ingestJobsAux]
  | cons p rest ih =>
    unfold ingestJobsAux
    by_cases h : trimSpace p = ""
    · rw [if_pos h]; exact ih (i + 1)
    · rw [if_neg h]
      refine List.Pairwise.cons ?_ (ih (i + 1))
      intro b hb
      have := ingestJobsAux_page_lt rest (i + 1) b hb
      show (i : Int) + 1 < b.1
      push_cast at this
      omega

/-- An upsert whose key is absent from the table is an insert. -/
theorem savePageUpsert_fresh (rows : List PageRow) (row : PageRow)
    (h : ∀ r ∈ rows, ¬ (r.documentID = row.documentID ∧ r.pageNumber = row.pageNumber)) :
    savePageUpsert rows row = rows ++ [row] := by
  have hb : ¬ (rows.any (fun r =>
      r.documentID = row.documentID ∧ r.pageNumber = row.pageNumber) = true) := by
    intro hcon
    rw [List.any_eq_true] at hcon
    obtain ⟨r, hr, hp⟩ := hcon
    exact h r hr (by simpa using hp)
  unfold savePageUpsert
  rw [if_neg hb]

/-- Folding upserts whose pairwise-distinct keys are all absent from the
base table appends the fresh rows in order. -/
theorem foldl_upsert_fresh (d : String) (jobs : List (Int × String))
    (base : List PageRow)
    (hfresh : ∀ r ∈ base, ∀ j ∈ jobs, ¬ (r.documentID = d ∧ r.pageNumber = j.1))
    (hdist : jobs.Pairwise (fun a b => a.1 ≠ b.1)) :
    jobs.foldl (fun rows j => savePageUpsert rows ⟨d, j.1, j.2⟩) base =
      base ++ jobs.map (fun j => (⟨d, j.1, j.2⟩ : PageRow)) := by
  induction jobs generalizing base with
  | nil => simp
  | cons j rest ih =>
    have hfresh2 : ∀ r ∈ base ++ [(⟨d, j.1, j.2⟩ : PageRow)], ∀ j2 ∈ rest,
        ¬ (r.documentID = d ∧ r.pageNumber = j2.1) := by
      intro r hr j2 hj2
      rcases List.mem_append.mp hr with h1 | h1
      · exact hfresh r h1 j2 (List.mem_cons_of_mem _ hj2)
      · have hrj : r = ⟨d, j.1, j.2⟩ := by simpa using h1
        subst hrj
        intro hcon
        exact (List.pairwise_cons.mp hdist).1 j2 hj2 hcon.2
    simp only [List.foldl_cons, List.map_cons]
    rw [savePageUpsert_fresh base ⟨d, j.1, j.2⟩
      (fun r hr => hfresh r hr j (List.mem_cons_self j rest))]
    have hstep := ih (base ++ [(⟨d, j.1, j.2⟩ : PageRow)]) hfresh2 hdist.of_cons
    rw [hstep]
    simp

/-- C3 (amended): provided the cleanup delete succeeds — its failure is
only warn-logged and the run continues — an entitled ingestion run over a
document with non-blank optimized pages p1..pn first deletes all of the
document's prior page and embedding rows and then recreates them from
this run alone: afterwards the document's page rows are exactly the rows
of the non-blank pages whose upsert succeeded — never a merge with rows
of an earlier run — so with all upserts succeeding there are exactly n
page rows, and there are never more than n page rows or more embedding
rows than page rows.  (When the cleanup delete fails, stale rows survive
and merge with the new ones: the original unconditional claim is refuted
by the counterexample below.) -/
theorem ingest_deletes_then_recreates (db : RetrievalDB)
    (prefs : Except String (Option UserPreferences))
    (optPages : Except String (Option (List String))) (documentID : String)
    (deleteOk : Bool) (saveOk embedOk : Int → Bool) (po : Option UserPreferences)
    (pages : List String) (hprefs : prefs = .ok po)
    (hplan : AskAIEnabledForPlan (planOfPrefs po) = true)
    (hpages : optPages = .ok (some pages)) (hne : pages ≠ []) (hdel : deleteOk = true) :
    ∃ db2, IngestDocument db prefs optPages documentID deleteOk saveOk embedOk = .ok db2 ∧
      pagesOfDoc db2 documentID =
        ((ingestJobs pages).filter (fun j => saveOk j.1)).map
          (fun j => (⟨documentID, j.1, j.2⟩ : PageRow)) ∧
      ((∀ j ∈ ingestJobs pages, saveOk j.1 = true) →
        (pagesOfDoc db2 documentID).length = (ingestJobs pages).length) ∧
      (embsOfDoc db2 documentID).length ≤ (pagesOfDoc db2 documentID).length ∧
      (pagesOfDoc db2 documentID).length ≤ (ingestJobs pages).length ∧
      (ingestJobs pages).length = (pages.filter (fun p => trimSpace p ≠ "")).length := by
  subst hprefs hpages hdel
  have hpw : ((ingestJobs pages).filter (fun j => saveOk j.1)).Pairwise
      (fun a b => a.1 ≠ b.1) :=
    (List.Pairwise.sublist (List.filter_sublist _)
      (ingestJobsAux_pairwise pages 0)).imp (fun h => ne_of_lt h)
  have hfreshBase : ∀ r ∈ (DeleteByDocumentID db documentID).pageRows,
      ∀ j2 ∈ (ingestJobs pages).filter (fun j => saveOk j.1),
      ¬ (r.documentID = documentID ∧ r.pageNumber = j2.1) := by
    intro r hr j2 _ hcon
    have h2 := (List.mem_filter.mp hr).2
    simp only [decide_eq_true_eq] at h2
    exact h2 hcon.1
  have hfold := foldl_upsert_fresh documentID
    ((ingestJobs pages).filter (fun j => saveOk j.1))
    (DeleteByDocumentID db documentID).pageRows hfreshBase hpw
  have hres : IngestDocument db (.ok po) (.ok (some pages)) documentID true saveOk embedOk =
      .ok
        { pageRows := (DeleteByDocumentID db documentID).pageRows ++
            ((ingestJobs pages).filter (fun j => saveOk j.1)).map
              (fun j => (⟨documentID, j.1, j.2⟩ : PageRow))
          embRows := (DeleteByDocumentID db documentID).embRows ++
            (((ingestJobs pages).filter (fun j => saveOk j.1)).filter
                (fun j => embedOk j.1)).map
              (fun j => (⟨documentID, j.1, 0⟩ : EmbeddingRow)) } := by
    simp [IngestDocument, ensureAskAIEntitled, hplan, List.isEmpty_iff, hne, hfold]
  refine ⟨_, hres, ?_, ?_, ?_, ?_, ?_⟩
  · simp [pagesOfDoc, DeleteByDocumentID, List.filter_append,
      filter_doc_of_filter_ne db.pageRows (fun r => r.documentID) documentID,
      filter_doc_map_pageRow]
  · intro hall
    have : (ingestJobs pages).filter (fun j => saveOk j.1) = ingestJobs pages :=
      List.filter_eq_self.mpr hall
    simp [pagesOfDoc, DeleteByDocumentID, List.filter_append,
      filter_doc_of_filter_ne db.pageRows (fun r => r.documentID) documentID,
      filter_doc_map_pageRow, this]
  · simp only [pagesOfDoc, embsOfDoc]
    simp [DeleteByDocumentID, List.filter_append,
      filter_doc_of_filter_ne db.pageRows (fun r => r.documentID) documentID,
      filter_doc_of_filter_ne db.embRows (fun r => r.documentID) documentID,
      filter_doc_map_pageRow, filter_doc_map_embRow]
    exact length_filter_and_le _ _ _
  · simp [pagesOfDoc, DeleteByDocumentID, List.filter_append,
      filter_doc_of_filter_ne db.pageRows (fun r => r.documentID) documentID,
      filter_doc_map_pageRow]
    exact List.length_filter_le _ _
  · exact ingestJobsAux_length pages 0

theorem ingest_deletes_then_recreates_witness :
    ∃ db2,
      IngestDocument
          ⟨[⟨"doc-1", 9, "stale"⟩, ⟨"doc-2", 1, "other"⟩], [⟨"doc-1", 9, 0⟩]⟩
          (.ok (some ⟨"pro_monthly", 0⟩)) (.ok (some ["one", " ", "two"])) "doc-1"
          true (fun _ => true) (fun p => p = 1) = .ok db2 ∧
      (pagesOfDoc db2 "doc-1").length = 2 := by
  obtain ⟨db2, h1, h2, h3, h4, h5, h6⟩ := ingest_deletes_then_recreates
    ⟨[⟨"doc-1", 9, "stale"⟩, ⟨"doc-2", 1, "other"⟩], [⟨"doc-1", 9, 0⟩]⟩
    (.ok (some ⟨"pro_monthly", 0⟩)) (.ok (some ["one", " ", "two"])) "doc-1"
    true (fun _ => true) (fun p => p = 1) (some ⟨"pro_monthly", 0⟩) ["one", " ", "two"]
    rfl (by decide) rfl (by decide) rfl
  refine ⟨db2, h1, ?_⟩
  rw [h3 (by intro j hj; rfl)]
  decide

/-- C3 (counterexample): when the cleanup delete fails — part_025 only
warn-logs the failure and continues — stale rows of a prior run survive
and merge with the new rows.  Re-ingesting the two non-blank pages of
doc-1 over a stale table leaves three page rows (the stale page-5 row
among them, the stale page-1 row overwritten by the upsert) and three
embedding rows, not the exactly-2 page rows and at-most-2 embedding rows
the original claim requires of every run. -/
theorem ingest_merges_when_cleanup_delete_fails :
    IngestDocument ⟨[⟨"doc-1", 1, "old1"⟩, ⟨"doc-1", 5, "old5"⟩], [⟨"doc-1", 5, 0⟩]⟩
        (.ok (some ⟨"pro_monthly", 0⟩)) (.ok (some ["new1", "new2"])) "doc-1"
        false (fun _ => true) (fun _ => true) =
      .ok ⟨[⟨"doc-1", 1, "new1"⟩, ⟨"doc-1", 5, "old5"⟩, ⟨"doc-1", 2, "new2"⟩],
        [⟨"doc-1", 5, 0⟩, ⟨"doc-1", 1, 0⟩, ⟨"doc-1", 2, 0⟩]⟩ ∧
    (ingestJobs ["new1", "new2"]).length = 2 ∧
    (pagesOfDoc ⟨[⟨"doc-1", 1, "new1"⟩, ⟨"doc-1", 5, "old5"⟩, ⟨"doc-1", 2, "new2"⟩],
        [⟨"doc-1", 5, 0⟩, ⟨"doc-1", 1, 0⟩, ⟨"doc-1", 2, 0⟩]⟩ "doc-1").length = 3 ∧
    (embsOfDoc ⟨[⟨"doc-1", 1, "new1"⟩, ⟨"doc-1", 5, "old5"⟩, ⟨"doc-1", 2, "new2"⟩],
        [⟨"doc-1", 5, 0⟩, ⟨"doc-1", 1, 0⟩, ⟨"doc-1", 2, 0⟩]⟩ "doc-1").length = 3 := by
  exact ⟨rfl, by decide, by decide, by decide⟩

/-! ## C4 -/

/-- C4 (counterexample): a chat turn that supplies currentPage = 1 over a
document whose page 1 has blank stored text (GetPageText returns the empty
string, e.g. because blank pages are never ingested) does not record 1 as
the first citation: the citations list is exactly the hit pages. -/
theorem currentPage_not_first_citation_when_blank :
    (assembleContext (some 1) none (.ok "") [⟨"page-2", 2, "second page text"⟩]).2 = [2] ∧
    (assembleContext (some 1) none (.ok "") [⟨"page-2", 2, "second page text"⟩]).2.head? ≠
      some 1 := by
  decide

/-- C4 (amended): for a chat turn supplying currentPage = k with k > 0,
provided the full-text fetch of page k succeeds with non-blank text, that
text is placed first in the assembled context and k is recorded as the
first citation; in every case each similarity hit whose page equals k is
skipped, so page k appears at most once in the assembled context (exactly
once when it was placed first); and the citations Ask returns are exactly
the assembled ones. -/
theorem currentPage_first_and_never_duplicated (currentPage totalPages : Option Int)
    (fetch : Except String String) (results : List SearchResult) (k : Int) (t : String)
    (hk : currentPage = some k) (hpos : 0 < k) (hfetch : fetch = .ok t)
    (hne : trimSpace t ≠ "") :
    (assembleContext currentPage totalPages fetch results).1.head? =
      some (.currentPageBlock k t) ∧
    (assembleContext currentPage totalPages fetch results).2.head? = some k ∧
    (contextPages (assembleContext currentPage totalPages fetch results).1).count k = 1 ∧
    (∀ t2, ContextItem.hit k t2 ∉ (assembleContext currentPage totalPages fetch results).1) ∧
    (∀ fetch2 : Except String String,
      (contextPages (assembleContext (some k) totalPages fetch2 results).1).count k ≤ 1) ∧
    (∀ (env : AskEnv) (userID : String) (req : ChatRequest) (resp : ChatResponse),
      (Ask env userID req).1 = .ok resp →
      resp.citations =
        (assembleContext req.currentPage req.totalPages env.pageText (searchResultsOf env)).2) := by
  subst hk hfetch
  have hmemne : ∀ r ∈ results.filter (fun r => r.pageNumber ≠ k), r.pageNumber ≠ k := by
    intro r hr
    simpa using List.of_mem_filter hr
  have hcount0 : ∀ (l : List SearchResult), (∀ r ∈ l, r.pageNumber ≠ k) →
      (contextPages (l.map (fun r => ContextItem.hit r.pageNumber r.text))).count k = 0 := by
    intro l hl
    induction l with
    | nil => rfl
    | cons r rest ih =>
      have hr := hl r (by simp)
      have h2 := ih (fun r2 hm => hl r2 (by simp [hm]))
      simp [contextPages, List.count_cons] at h2 ⊢
      simp [h2, hr]
  have hA : assembleContext (some k) totalPages (.ok t) results =
      ([ContextItem.currentPageBlock k t, ContextItem.viewingNote k totalPages,
        ContextItem.additionalContextHeader] ++
        (results.filter (fun r => r.pageNumber ≠ k)).map
          (fun r => ContextItem.hit r.pageNumber r.text) ++
        [ContextItem.rules],
       k :: (results.filter (fun r => r.pageNumber ≠ k)).map (fun r => r.pageNumber)) := by
    simp [assembleContext, hpos, hne]
  refine ⟨?_, ?_, ?_, ?_, ?_, ?_⟩
  · rw [hA]
    rfl
  · rw [hA]
    rfl
  · rw [hA]
    have h0 := hcount0 _ hmemne
    simp [contextPages, List.count_cons, List.count_append] at h0 ⊢
    simp [h0]
  · intro t2 hmem
    rw [hA] at hmem
    simp only [List.mem_append, List.mem_cons, List.mem_singleton, List.mem_map,
      List.not_mem_nil, or_false] at hmem
    rcases hmem with ((h | h | h) | ⟨r, hr, hrez⟩) | h
    · exact ContextItem.noConfusion h
    · exact ContextItem.noConfusion h
    · exact ContextItem.noConfusion h
    · injection hrez with h1 h2
      exact hmemne r hr h1
    · exact ContextItem.noConfusion h
  · intro fetch2
    have h0 := hcount0 _ hmemne
    rcases fetch2 with e | t2
    · have hB : assembleContext (some k) totalPages (.error e) results =
          ([ContextItem.viewingNote k totalPages, ContextItem.additionalContextHeader] ++
            (results.filter (fun r => r.pageNumber ≠ k)).map
              (fun r => ContextItem.hit r.pageNumber r.text) ++
            [ContextItem.rules],
           (results.filter (fun r => r.pageNumber ≠ k)).map (fun r => r.pageNumber)) := by
        simp [assembleContext, hpos]
      rw [hB]
      simp [contextPages, List.count_cons, List.count_append] at h0 ⊢
      simp [h0]
    · by_cases h2 : trimSpace t2 = ""
      · have hB : assembleContext (some k) totalPages (.ok t2) results =
            ([ContextItem.viewingNote k totalPages, ContextItem.additionalContextHeader] ++
              (results.filter (fun r => r.pageNumber ≠ k)).map
                (fun r => ContextItem.hit r.pageNumber r.text) ++
              [ContextItem.rules],
             (results.filter (fun r => r.pageNumber ≠ k)).map (fun r => r.pageNumber)) := by
          simp [assembleContext, hpos, h2]
        rw [hB]
        simp [contextPages, List.count_cons, List.count_append] at h0 ⊢
        simp [h0]
      · have hB : assembleContext (some k) totalPages (.ok t2) results =
            ([ContextItem.currentPageBlock k t2, ContextItem.viewingNote k totalPages,
              ContextItem.additionalContextHeader] ++
              (results.filter (fun r => r.pageNumber ≠ k)).map
                (fun r => ContextItem.hit r.pageNumber r.text) ++
              [ContextItem.rules],
             k :: (results.filter (fun r => r.pageNumber ≠ k)).map (fun r => r.pageNumber)) := by
          simp [assembleContext, hpos, h2]
        rw [hB]
        simp [contextPages, List.count_cons, List.count_append] at h0 ⊢
        simp [h0]
  · intro env userID req resp h
    unfold Ask at h
    rcases hg : ensureAskAIWithinQuota env.prefs env.usage with ⟨res, effs⟩
    rw [hg] at h
    rcases res with e | lim
    · simp at h
    · by_cases hs : req.sessionID = "" <;>
        rcases hso : env.sessionOwner with em | owner <;>
        rcases hns : env.newSessionID with em2 | sid <;>
        rcases hqe : env.queryEmbedding with em3 | uu <;>
        rcases hmr : env.modelReply with em4 | rep <;>
          (try simp only [hs, hso, hns, hqe, hmr, ne_eq, ite_true, ite_false, not_true,
            not_false_iff, if_true, if_false] at h) <;>
          (try split_ifs at h) <;>
          (try simp only [Except.ok.injEq] at h) <;>
          first
            | exact absurd h (by simp)
            | (rw [← h]; rfl)

theorem currentPage_first_and_never_duplicated_witness :
    (assembleContext (some 2) (some 10) (.ok "page two text")
        [⟨"p2", 2, "duplicate hit"⟩, ⟨"p5", 5, "five"⟩]).2.head? = some 2 ∧
    (contextPages (assembleContext (some 2) (some 10) (.ok "page two text")
        [⟨"p2", 2, "duplicate hit"⟩, ⟨"p5", 5, "five"⟩]).1).count 2 = 1 :=
  have h := currentPage_first_and_never_duplicated (some 2) (some 10) (.ok "page two text")
    [⟨"p2", 2, "duplicate hit"⟩, ⟨"p5", 5, "five"⟩] 2 "page two text" rfl (by decide) rfl
    (by decide)
  ⟨h.2.1, h.2.2.1⟩

/-! ## C6 -/

/-- Every block the paragraph loop emits carries the page number it was
called with. -/
theorem processParagraphs_pageNumber (n : Int) (ps : List String) (c : Int) :
    ∀ b ∈ (processParagraphs n ps c).1, b.pageNumber = n := by
  induction ps generalizing c with
  | nil => intro b hb; simp [processParagraphs] at hb
  | cons p rest ih =>
    intro b hb
    by_cases h : trimSpace p = ""
    · exact ih c b (by simpa [processParagraphs, h] using hb)
    · simp only [processParagraphs, h, if_false, ite_false] at hb
      rcases List.mem_cons.mp hb with h2 | h2
      · rw [h2]
      · exact ih (c + 1) b h2

/-- Every block a page produces carries that page's number. -/
theorem processPage_pageNumber (n : Int) (f : PageFetch) :
    ∀ b ∈ (processPage n f).1, b.pageNumber = n := by
  intro b hb
  cases f with
  | failed msg => simp [processPage, emptyBlock] at hb; simp [hb, emptyBlock]
  | timedOut => simp [processPage, emptyBlock] at hb; simp [hb, emptyBlock]
  | ok raw =>
    simp only [processPage] at hb
    by_cases h : trimSpace raw = ""
    · rw [if_pos h] at hb
      simp at hb
      simp [hb, emptyBlock]
    · rw [if_neg h] at hb
      exact processParagraphs_pageNumber n _ 0 b hb

/-- Blocks produced from the suffix of pages starting at 0-based index s
have page numbers strictly above s. -/
theorem processPages_pageNumber_ge (ps : List PageFetch) (s : Nat) :
    ∀ b ∈ (processPages ps s).1, (s : Int) + 1 ≤ b.pageNumber := by
  induction ps generalizing s with
  | nil => intro b hb; simp [processPages] at hb
  | cons f rest ih =>
    intro b hb
    simp only [processPages] at hb
    rcases List.mem_append.mp hb with h | h
    · rw [processPage_pageNumber ((s : Int) + 1) f b h]
    · have := ih (s + 1) b h
      push_cast at this ⊢
      omega

/-- Filtering all emitted blocks for one page keeps exactly that page's
blocks. -/
theorem processPages_filter_eq (ps : List PageFetch) (s i : Nat) (hi : i < ps.length) :
    (processPages ps s).1.filter (fun b => b.pageNumber = ((s + i : Nat) : Int) + 1) =
      (processPage (((s + i : Nat) : Int) + 1) (ps.get ⟨i, hi⟩)).1 := by
  induction ps generalizing s i with
  | nil => simp at hi
  | cons f rest ih =>
    cases i with
    | zero =>
      simp only [processPages, List.filter_append]
      have h1 : (processPage ((s : Int) + 1) f).1.filter
          (fun b => b.pageNumber = ((s + 0 : Nat) : Int) + 1) =
          (processPage ((s : Int) + 1) f).1 := by
        refine List.filter_eq_self.mpr ?_
        intro b hb
        have := processPage_pageNumber ((s : Int) + 1) f b hb
        simp [this]
      have h2 : (processPages rest (s + 1)).1.filter
          (fun b => b.pageNumber = ((s + 0 : Nat) : Int) + 1) = [] := by
        refine List.filter_eq_nil_iff.mpr ?_
        intro b hb
        have := processPages_pageNumber_ge rest (s + 1) b hb
        push_cast at this
        simp only [decide_eq_true_eq]
        push_cast
        omega
      rw [h1, h2, List.append_nil]
      rfl
    | succ j =>
      simp only [processPages, List.filter_append]
      have h1 : (processPage ((s : Int) + 1) f).1.filter
          (fun b => b.pageNumber = ((s + (j + 1) : Nat) : Int) + 1) = [] := by
        refine List.filter_eq_nil_iff.mpr ?_
        intro b hb
        have := processPage_pageNumber ((s : Int) + 1) f b hb
        simp only [decide_eq_true_eq, this]
        push_cast
        omega
      rw [h1, List.nil_append]
      have hj : j < rest.length := by simpa using hi
      have := ih (s + 1) j hj
      have harith : (((s + 1) + j : Nat) : Int) + 1 = ((s + (j + 1) : Nat) : Int) + 1 := by
        push_cast
        omega
      rw [harith] at this
      rw [this]
      rfl

/-- The onPage trace records one entry per page, carrying the page's
1-based number and its callback text. -/
theorem processPages_trace_mem (ps : List PageFetch) (s i : Nat) (hi : i < ps.length) :
    (((s + i : Nat) : Int) + 1, (processPage (((s + i : Nat) : Int) + 1) (ps.get ⟨i, hi⟩)).2) ∈
      (processPages ps s).2 := by
  induction ps generalizing s i with
  | nil => simp at hi
  | cons f rest ih =>
    cases i with
    | zero =>
      simp only [processPages]
      left
    | succ j =>
      simp only [processPages]
      right
      have hj : j < rest.length := by simpa using hi
      have := ih (s + 1) j hj
      have harith : (((s + 1) + j : Nat) : Int) = ((s + (j + 1) : Nat) : Int) := by
        push_cast
        omega
      rw [harith] at this
      simpa using this

/-- C6: a page whose text extraction returns an error or runs into the
hard 90-second timeout degrades gracefully: the block list still contains
exactly one block for that page — an empty paragraph block carrying the
page's 1-based number — the onPage callback still fires for it with empty
text, and the document still ends in the terminal ready write (the only
failure that fails a document is the open of the PDF itself). -/
theorem failed_page_becomes_empty_block_and_doc_ready (doc : PDFDoc) (i : Nat)
    (hi : i < doc.pages.length)
    (hfail : (∃ msg, doc.pages.get ⟨i, hi⟩ = .failed msg) ∨ doc.pages.get ⟨i, hi⟩ = .timedOut) :
    (processPDF doc).1.filter (fun b => b.pageNumber = (i : Int) + 1) =
      [emptyBlock ((i : Int) + 1)] ∧
    ((i : Int) + 1, "") ∈ (processPDF doc).2.2 ∧
    (uploadWrites (.ok doc)).getLast? = some ⟨"ready", true, none⟩ ∧
    (uploadWrites (.ok doc)).head? = some ⟨"processing", false, none⟩ := by
  have hcast : ((0 + i : Nat) : Int) + 1 = (i : Int) + 1 := by
    push_cast
    omega
  have hpage : (processPage ((i : Int) + 1) (doc.pages.get ⟨i, hi⟩)) =
      ([emptyBlock ((i : Int) + 1)], "") := by
    rcases hfail with ⟨msg, h⟩ | h <;> rw [h] <;> rfl
  refine ⟨?_, ?_, ?_, rfl⟩
  · have := processPages_filter_eq doc.pages 0 i hi
    rw [hcast] at this
    calc (processPDF doc).1.filter (fun b => b.pageNumber = (i : Int) + 1)
        = (processPages doc.pages 0).1.filter (fun b => b.pageNumber = (i : Int) + 1) := rfl
      _ = (processPage ((i : Int) + 1) (doc.pages.get ⟨i, hi⟩)).1 := this
      _ = [emptyBlock ((i : Int) + 1)] := by rw [hpage]
  · have := processPages_trace_mem doc.pages 0 i hi
    rw [hcast] at this
    rw [hpage] at this
    exact this
  · show (⟨"processing", false, none⟩ ::
      ((interPages ((processPDF doc).2.2.map Prod.fst) 0).map
          (fun _ => (⟨"processing", false, none⟩ : DocWrite)) ++
        [⟨"ready", true, none⟩])).getLast? = some ⟨"ready", true, none⟩
    rw [← List.cons_append]
    exact List.getLast?_concat _

theorem failed_page_becomes_empty_block_and_doc_ready_witness :
    (processPDF ⟨"title", "author", [.ok "hello world", .failed "render error"]⟩).1.filter
        (fun b => b.pageNumber = (1 : Int) + 1) = [emptyBlock ((1 : Int) + 1)] ∧
    ((1 : Int) + 1, "") ∈
      (processPDF ⟨"title", "author", [.ok "hello world", .failed "render error"]⟩).2.2 ∧
    (uploadWrites (.ok ⟨"title", "author", [.ok "hello world", .failed "render error"]⟩)).getLast? =
      some ⟨"ready", true, none⟩ :=
  have h := failed_page_becomes_empty_block_and_doc_ready
    ⟨"title", "author", [.ok "hello world", .failed "render error"]⟩ 1 (by decide)
    (Or.inl ⟨"render error", rfl⟩)
  ⟨h.1, h.2.1, h.2.2.1⟩

/-! ## C1 -/

/-- The writes of one upload are some positive number of processing writes
followed by exactly one terminal write. -/
theorem uploadWrites_shape (r : Except String PDFDoc) :
    ∃ k, uploadWrites r = List.replicate (k + 1) processingWrite ++ [terminalWrite r] := by
  cases r with
  | error msg => exact ⟨0, rfl⟩
  | ok doc =>
    refine ⟨(interPages ((processPDF doc).2.2.map Prod.fst) 0).length, ?_⟩
    simp only [uploadWrites, terminalWrite, processingWrite, List.replicate_succ,
      List.cons_append]
    congr 1
    induction interPages ((processPDF doc).2.2.map Prod.fst) 0 with
    | nil => rfl
    | cons x rest ih => simp [List.replicate_succ, ih]

/-- Collapsing consecutive repeats of a run of equal elements followed by
one different element leaves the two-element chain. -/
theorem destutter_replicate_append_singleton (k : Nat) (a b : String) (h : a ≠ b) :
    (List.replicate (k + 1) a ++ [b]).destutter (· ≠ ·) = [a, b] := by
  have hstep : ∀ m : Nat, (List.replicate m a ++ [b]).destutter' (· ≠ ·) a = [a, b] := by
    intro m
    induction m with
    | zero => simp [h]
    | succ n ih =>
      have : List.replicate (n + 1) a ++ [b] = a :: (List.replicate n a ++ [b]) := by
        simp [List.replicate_succ]
      rw [this]
      exact (List.destutter'_cons_neg _ (by simp : ¬ (a ≠ a))).trans ih
  have : List.replicate (k + 1) a ++ [b] = a :: (List.replicate k a ++ [b]) := by
    simp [List.replicate_succ]
  rw [this, List.destutter_cons']
  exact hstep k

/-- C1: the document-row writes of one upload observe only the legal
status sequences: the row is created as processing before any text is
derived, every intermediate write keeps processing, exactly one terminal
write moves it to ready (stamping processedAt) or to failed, nothing ever
runs after the terminal write — so the observed statuses collapse to
[processing, ready] or to [processing, failed], never a backward step, and
a stamped processedAt (which only the final ready write sets) is never
touched again. -/
theorem processing_status_lifecycle (r : Except String PDFDoc) :
    (((uploadWrites r).map DocWrite.status).destutter (· ≠ ·) = ["processing", "ready"] ∨
      ((uploadWrites r).map DocWrite.status).destutter (· ≠ ·) = ["processing", "failed"]) ∧
    (uploadWrites r).head? = some ⟨"processing", false, none⟩ ∧
    (∀ w ∈ (uploadWrites r).dropLast, w.status = "processing" ∧ w.processedAtSet = false) ∧
    (uploadWrites r).getLast? = some (terminalWrite r) ∧
    ((uploadWrites r).map DocWrite.status).count "ready" +
      ((uploadWrites r).map DocWrite.status).count "failed" = 1 ∧
    ((∃ d, r = .ok d) ↔ (terminalWrite r).status = "ready" ∧ (terminalWrite r).processedAtSet) := by
  obtain ⟨k, hk⟩ := uploadWrites_shape r
  have hterm : (terminalWrite r).status = "ready" ∨ (terminalWrite r).status = "failed" := by
    cases r with
    | error msg => right; rfl
    | ok doc => left; rfl
  have hmap : (uploadWrites r).map DocWrite.status =
      List.replicate (k + 1) "processing" ++ [(terminalWrite r).status] := by
    rw [hk]
    simp [processingWrite, List.map_replicate]
  refine ⟨?_, ?_, ?_, ?_, ?_, ?_⟩
  · rw [hmap]
    rcases hterm with h | h <;> rw [h]
    · exact Or.inl (destutter_replicate_append_singleton k _ _ (by decide))
    · exact Or.inr (destutter_replicate_append_singleton k _ _ (by decide))
  · rw [hk]
    simp [List.replicate_succ, processingWrite]
  · intro w hw
    rw [hk, List.dropLast_concat] at hw
    have := List.eq_of_mem_replicate hw
    rw [this]
    exact ⟨rfl, rfl⟩
  · rw [hk]
    exact List.getLast?_concat _
  · rw [hmap]
    rcases hterm with h | h <;> rw [h] <;>
      simp [List.count_append, List.count_replicate]
  · cases r with
    | error msg =>
      constructor
      · rintro ⟨d, hd⟩
        exact Except.noConfusion hd
      · rintro ⟨h1, h2⟩
        simp [terminalWrite] at h1
    | ok doc => exact ⟨fun _ => ⟨rfl, rfl⟩, fun _ => ⟨doc, rfl⟩⟩

theorem processing_status_lifecycle_witness :
    ((uploadWrites (.error "failed to open PDF")).map DocWrite.status).destutter (· ≠ ·) =
      ["processing", "failed"] := by
  rcases (processing_status_lifecycle (.error "failed to open PDF")).1 with h1 | h1
  · exact absurd h1 (by decide)
  · exact h1

/-! ## C2: the optimized-pages array -/

theorem trimSpace_empty : trimSpace "" = "" := rfl

theorem pageAcc_nil (p : Int) (acc : String) : pageAcc [] p acc = acc := rfl

theorem pageAcc_cons (b : TextBlock) (l : List TextBlock) (p : Int) (acc : String) :
    pageAcc (b :: l) p acc =
      pageAcc l p (if b.pageNumber = p then joinStep acc (trimSpace b.content) else acc) :=
  rfl

theorem pageAcc_of_ne (l : List TextBlock) (p : Int) (acc : String)
    (h : ∀ b ∈ l, b.pageNumber ≠ p) : pageAcc l p acc = acc := by
  induction l generalizing acc with
  | nil => rfl
  | cons b rest ih =>
    rw [pageAcc_cons, if_neg (h b (by simp)), ih _ (fun x hx => h x (by simp [hx]))]

theorem foldl_max_init (l : List TextBlock) (a : Nat) :
    l.foldl (fun m b => max m (pageNat b)) a = max a (l.foldl (fun m b => max m (pageNat b)) 0) := by
  induction l generalizing a with
  | nil => simp
  | cons b rest ih =>
    simp only [List.foldl_cons]
    rw [ih (max a (pageNat b)), ih (max 0 (pageNat b))]
    omega

theorem maxObservedPage_cons (b : TextBlock) (l : List TextBlock) :
    maxObservedPage (b :: l) = max (pageNat b) (maxObservedPage l) := by
  unfold maxObservedPage
  rw [List.foldl_cons, foldl_max_init]
  omega

theorem maxObservedPage_perm (l1 l2 : List TextBlock) (h : List.Perm l1 l2) :
    maxObservedPage l1 = maxObservedPage l2 := by
  refine h.foldl_eq' ?_ 0
  intro x _ y _ z
  omega

theorem optFlush_pages_length (s : OptState) : (optFlush s).pages.length = s.pages.length := by
  unfold optFlush
  split_ifs <;> simp

theorem optFlush_sb (s : OptState) : (optFlush s).sb = "" := by
  unfold optFlush
  split_ifs <;> rfl

theorem optFlush_currentPage (s : OptState) : (optFlush s).currentPage = s.currentPage := by
  unfold optFlush
  split_ifs <;> rfl

theorem optFlush_pages_getElem_ne (s : OptState) (j : Nat) (hj : (j : Int) ≠ s.currentPage) :
    (optFlush s).pages[j]? = s.pages[j]? := by
  unfold optFlush
  split_ifs with h
  · exact List.getElem?_set_ne (by omega)
  · rfl

theorem optFlush_pages_getElem_self (s : OptState) (hc : 0 ≤ s.currentPage)
    (hlen : s.currentPage.toNat < s.pages.length) :
    (optFlush s).pages[s.currentPage.toNat]? = some (trimSpace s.sb) := by
  unfold optFlush
  rw [if_pos ⟨hc, hlen⟩]
  exact List.getElem?_set_self hlen

theorem optGrow_length (pages : List String) (n : Nat) :
    (optGrow pages n).length = max pages.length n := by
  simp [optGrow]
  omega

/-- A block with a non-positive page number is skipped. -/
theorem optStep_invalid (s : OptState) (b : TextBlock) (h : b.pageNumber ≤ 0) :
    optStep s b = s := by
  unfold optStep
  rw [if_pos (by omega : b.pageNumber - 1 < 0)]

/-- A block of the page the cursor is on only extends the builder. -/
theorem optStep_same_page (pages : List String) (cur : Int) (sb : String) (b : TextBlock)
    (hval : 1 ≤ b.pageNumber) (heq : b.pageNumber - 1 = cur)
    (hlen : cur < (pages.length : Int)) :
    optStep ⟨pages, cur, sb⟩ b = ⟨pages, cur, joinStep sb (trimSpace b.content)⟩ := by
  unfold optStep joinStep
  rw [if_neg (by omega : ¬ b.pageNumber - 1 < 0)]
  simp only [heq]
  rw [if_neg (by omega : ¬ pages.length ≤ cur.toNat)]
  simp only [ne_eq, not_true_eq_false, if_neg, ite_false]
  split_ifs <;> rfl

/-- A block of a page past the cursor grows the slice if needed, flushes
the pending page, moves the cursor, and starts the builder afresh. -/
theorem optStep_new_page (pages : List String) (cur : Int) (sb : String) (b : TextBlock)
    (hval : 1 ≤ b.pageNumber) (hgt : cur < b.pageNumber - 1) :
    optStep ⟨pages, cur, sb⟩ b =
      ⟨(optFlush ⟨if pages.length ≤ (b.pageNumber - 1).toNat then
          optGrow pages ((b.pageNumber - 1).toNat + 1) else pages, cur, sb⟩).pages,
        b.pageNumber - 1, joinStep "" (trimSpace b.content)⟩ := by
  unfold optStep joinStep
  rw [if_neg (by omega : ¬ b.pageNumber - 1 < 0)]
  simp only
  rw [if_pos (by omega : b.pageNumber - 1 ≠ cur)]
  split_ifs with h1 h2 <;> simp_all [optFlush_sb, optFlush_currentPage]

/-- The pages slice left by running the block loop from a given state and
flushing. -/
def runPages (l : List TextBlock) (pages : List String) (cur : Int) (sb : String) :
    List String :=
  (optFlush (l.foldl optStep ⟨pages, cur, sb⟩)).pages

/-- The invariant of the ConvertToOptimizedPagesJSON loop, for a block list
that is sorted by page and entirely at or past the cursor's page, over a
slice that is untouched from the cursor on: the final slice grows to the
highest observed page, entries below the cursor are untouched, the
cursor's entry becomes the flushed builder extended by the cursor page's
blocks, and every later entry becomes exactly its page's joined text. -/
theorem runPages_spec (l : List TextBlock) :
    ∀ (pages : List String) (cur : Int) (sb : String),
    l.Pairwise (fun a b => a.pageNumber ≤ b.pageNumber) →
    (∀ b ∈ l, 1 ≤ b.pageNumber → cur + 1 ≤ b.pageNumber) →
    -1 ≤ cur → cur < (pages.length : Int) →
    (∀ j : Nat, cur ≤ (j : Int) → j < pages.length → pages[j]? = some "") →
    (runPages l pages cur sb).length = max pages.length (maxObservedPage l) ∧
    (∀ j : Nat, (j : Int) < cur → (runPages l pages cur sb)[j]? = pages[j]?) ∧
    (∀ j : Nat, (j : Int) = cur →
      (runPages l pages cur sb)[j]? = some (trimSpace (pageAcc l (cur + 1) sb))) ∧
    (∀ j : Nat, cur < (j : Int) → j < (runPages l pages cur sb).length →
      (runPages l pages cur sb)[j]? = some (trimSpace (pageAcc l ((j : Int) + 1) ""))) := by
  induction l with
  | nil =>
    intro pages cur sb hsort hcond hcur1 hcur2 hblank
    have hrun : runPages [] pages cur sb = (optFlush ⟨pages, cur, sb⟩).pages := rfl
    by_cases hc : 0 ≤ cur
    · have hcl : cur.toNat < pages.length := by omega
      have hfl : (optFlush ⟨pages, cur, sb⟩).pages = pages.set cur.toNat (trimSpace sb) := by
        unfold optFlush
        rw [if_pos ⟨hc, hcl⟩]
      rw [hrun, hfl]
      refine ⟨by simp [maxObservedPage], ?_, ?_, ?_⟩
      · intro j hj
        exact List.getElem?_set_ne (by omega)
      · intro j hj
        have hjc : j = cur.toNat := by omega
        rw [hjc]
        rw [List.getElem?_set_self hcl]
        rfl
      · intro j hj hlen
        rw [List.getElem?_set_ne (by omega)]
        rw [hblank j (by omega) (by simpa using hlen)]
        rfl
    · have hfl : (optFlush ⟨pages, cur, sb⟩).pages = pages := by
        unfold optFlush
        rw [if_neg (fun h => hc h.1)]
      rw [hrun, hfl]
      refine ⟨by simp [maxObservedPage], ?_, ?_, ?_⟩
      · intro j hj
        rfl
      · intro j hj
        omega
      · intro j hj hlen
        rw [hblank j (by omega) (by simpa using hlen)]
        rfl
  | cons b l' ih =>
    intro pages cur sb hsort hcond hcur1 hcur2 hblank
    have hsort' := (List.pairwise_cons.mp hsort).2
    have hhead := (List.pairwise_cons.mp hsort).1
    by_cases hval : b.pageNumber ≤ 0
    · -- skipped block
      have hrun : runPages (b :: l') pages cur sb = runPages l' pages cur sb := by
        simp [runPages, List.foldl_cons, optStep_invalid _ _ hval]
      obtain ⟨ih1, ih2, ih3, ih4⟩ := ih pages cur sb hsort'
        (fun x hx h1 => hcond x (by simp [hx]) h1) hcur1 hcur2 hblank
      rw [hrun]
      refine ⟨?_, ih2, ?_, ?_⟩
      · have hpn : pageNat b = 0 := by
          unfold pageNat
          rw [if_neg (by omega : ¬ (1 : Int) ≤ b.pageNumber)]
        rw [ih1, maxObservedPage_cons, hpn]
        omega
      · intro j hj
        rw [ih3 j hj]
        have hb : ¬ b.pageNumber = cur + 1 := by omega
        rw [pageAcc_cons, if_neg hb]
      · intro j hj hlen
        rw [ih4 j hj hlen]
        have hb : ¬ b.pageNumber = (j : Int) + 1 := by omega
        rw [pageAcc_cons, if_neg hb]
    · push_neg at hval
      have hc0 : cur + 1 ≤ b.pageNumber := hcond b (by simp) hval
      by_cases hsame : b.pageNumber - 1 = cur
      · -- block of the cursor's page
        have hrun : runPages (b :: l') pages cur sb =
            runPages l' pages cur (joinStep sb (trimSpace b.content)) := by
          simp [runPages, List.foldl_cons,
            optStep_same_page pages cur sb b hval hsame hcur2]
        obtain ⟨ih1, ih2, ih3, ih4⟩ := ih pages cur (joinStep sb (trimSpace b.content)) hsort'
          (fun x hx h1 => hcond x (by simp [hx]) h1) hcur1 hcur2 hblank
        rw [hrun]
        refine ⟨?_, ih2, ?_, ?_⟩
        · have hpn : pageNat b = (cur + 1).toNat := by
            unfold pageNat
            rw [if_pos (by omega : (1 : Int) ≤ b.pageNumber)]
            omega
          rw [ih1, maxObservedPage_cons, hpn]
          omega
        · intro j hj
          rw [ih3 j hj]
          have hb : b.pageNumber = cur + 1 := by omega
          rw [pageAcc_cons, if_pos hb]
        · intro j hj hlen
          rw [ih4 j hj hlen]
          have hb : ¬ b.pageNumber = (j : Int) + 1 := by omega
          rw [pageAcc_cons, if_neg hb]
      · -- block of a later page
        have hgt : cur < b.pageNumber - 1 := by omega
        have hpn0 : 0 ≤ b.pageNumber - 1 := by omega
        have hpncast : ((b.pageNumber - 1).toNat : Int) = b.pageNumber - 1 :=
          Int.toNat_of_nonneg hpn0
        have hstep := optStep_new_page pages cur sb b hval hgt
        have hrun : runPages (b :: l') pages cur sb =
            runPages l'
              (optFlush ⟨if pages.length ≤ (b.pageNumber - 1).toNat then
                optGrow pages ((b.pageNumber - 1).toNat + 1) else pages, cur, sb⟩).pages
              (b.pageNumber - 1) (joinStep "" (trimSpace b.content)) := by
          simp [runPages, List.foldl_cons, hstep]
        have hlen1 : (if pages.length ≤ (b.pageNumber - 1).toNat then
            optGrow pages ((b.pageNumber - 1).toNat + 1) else pages).length =
            max pages.length ((b.pageNumber - 1).toNat + 1) := by
          split_ifs with hg
          · rw [optGrow_length]
          · omega
        have hlen2 : (optFlush ⟨if pages.length ≤ (b.pageNumber - 1).toNat then
            optGrow pages ((b.pageNumber - 1).toNat + 1) else pages, cur, sb⟩).pages.length =
            max pages.length ((b.pageNumber - 1).toNat + 1) := by
          rw [optFlush_pages_length]
          exact hlen1
        have hget1 : ∀ j : Nat, j < pages.length →
            (if pages.length ≤ (b.pageNumber - 1).toNat then
              optGrow pages ((b.pageNumber - 1).toNat + 1) else pages)[j]? = pages[j]? := by
          intro j hj
          split_ifs with hg
          · exact List.getElem?_append_left hj
          · rfl
        have hget1b : ∀ j : Nat, pages.length ≤ j →
            j < max pages.length ((b.pageNumber - 1).toNat + 1) →
            (if pages.length ≤ (b.pageNumber - 1).toNat then
              optGrow pages ((b.pageNumber - 1).toNat + 1) else pages)[j]? = some "" := by
          intro j hj hj2
          split_ifs with hg
          · unfold optGrow
            rw [List.getElem?_append_right hj]
            simp [List.getElem?_replicate]
            omega
          · omega
        have hget2 : ∀ j : Nat, (j : Int) ≠ cur →
            (optFlush ⟨if pages.length ≤ (b.pageNumber - 1).toNat then
              optGrow pages ((b.pageNumber - 1).toNat + 1) else pages, cur, sb⟩).pages[j]? =
            (if pages.length ≤ (b.pageNumber - 1).toNat then
              optGrow pages ((b.pageNumber - 1).toNat + 1) else pages)[j]? := by
          intro j hj
          exact optFlush_pages_getElem_ne ⟨_, cur, sb⟩ j hj
        have hget2b : 0 ≤ cur →
            (optFlush ⟨if pages.length ≤ (b.pageNumber - 1).toNat then
              optGrow pages ((b.pageNumber - 1).toNat + 1) else pages, cur, sb⟩).pages[cur.toNat]? =
            some (trimSpace sb) := by
          intro hc
          have hlt : cur.toNat < (if pages.length ≤ (b.pageNumber - 1).toNat then
              optGrow pages ((b.pageNumber - 1).toNat + 1) else pages).length := by
            rw [hlen1]
            omega
          exact optFlush_pages_getElem_self ⟨_, cur, sb⟩ hc hlt
        obtain ⟨ih1, ih2, ih3, ih4⟩ := ih
          (optFlush ⟨if pages.length ≤ (b.pageNumber - 1).toNat then
            optGrow pages ((b.pageNumber - 1).toNat + 1) else pages, cur, sb⟩).pages
          (b.pageNumber - 1) (joinStep "" (trimSpace b.content))
          hsort'
          (fun x hx _ => by
            have := hhead x hx
            omega)
          (by omega)
          (by rw [hlen2]; push_cast; omega)
          (by
            intro j hj hjlen
            rw [hget2 j (by omega)]
            rw [hlen2] at hjlen
            by_cases hjp : j < pages.length
            · rw [hget1 j hjp]
              exact hblank j (by omega) hjp
            · exact hget1b j (by omega) hjlen)
        rw [hrun]
        have hpage : pageNat b = (b.pageNumber - 1).toNat + 1 := by
          unfold pageNat
          rw [if_pos (by omega : (1 : Int) ≤ b.pageNumber)]
          omega
        refine ⟨?_, ?_, ?_, ?_⟩
        · rw [ih1, hlen2, maxObservedPage_cons, hpage]
          omega
        · intro j hj
          rw [ih2 j (by omega), hget2 j (by omega), hget1 j (by omega)]
        · intro j hj
          have hc : 0 ≤ cur := by omega
          rw [ih2 j (by omega), show j = cur.toNat by omega, hget2b hc]
          have hb : b.pageNumber ≠ cur + 1 := by omega
          rw [pageAcc_cons, if_neg hb]
          rw [pageAcc_of_ne l' (cur + 1) sb
            (fun x hx => by have := hhead x hx; omega)]
        · intro j hj hlen
          rcases lt_trichotomy ((j : Int)) (b.pageNumber - 1) with hj2 | hj2 | hj2
          · rw [ih2 j (by omega), hget2 j (by omega)]
            have hpa : pageAcc (b :: l') ((j : Int) + 1) "" = "" := by
              refine pageAcc_of_ne _ _ _ ?_
              intro x hx
              rcases List.mem_cons.mp hx with hx2 | hx2
              · rw [hx2]; omega
              · have := hhead x hx2; omega
            rw [hpa]
            by_cases hjp : j < pages.length
            · rw [hget1 j hjp, hblank j (by omega) hjp]
              rfl
            · rw [hget1b j (by omega) (by rw [hlen2] at *; omega)]
              rfl
          · rw [ih3 j hj2]
            have hb : b.pageNumber = (j : Int) + 1 := by omega
            rw [pageAcc_cons, if_pos hb, hj2]
          · rw [ih4 j (by omega) hlen]
            have hb : ¬ b.pageNumber = (j : Int) + 1 := by omega
            rw [pageAcc_cons, if_neg hb]

theorem blockLess_false_trans (x y z : TextBlock) (h1 : blockLess x y = false)
    (h2 : blockLess y z = false) : blockLess x z = false := by
  unfold blockLess at *
  split_ifs at * <;> simp_all <;> omega

theorem blockLess_asymm (a b : TextBlock) :
    blockLess b a = false ∨ blockLess a b = false := by
  unfold blockLess
  split_ifs <;> simp_all <;> omega

theorem blockLess_false_page_le (a b : TextBlock) (h : blockLess b a = false) :
    a.pageNumber ≤ b.pageNumber := by
  unfold blockLess at h
  split_ifs at h <;> simp_all

/-- The sorted block list is ordered by page number. -/
theorem sortBlocks_pairwise (blocks : List TextBlock) :
    (sortBlocks blocks).Pairwise (fun a b => a.pageNumber ≤ b.pageNumber) := by
  have h := @List.sorted_mergeSort TextBlock (fun a b => decide ¬(blockLess b a = true))
    (fun a b c hab hbc => by
      simp only [decide_eq_true_eq, Bool.not_eq_true] at hab hbc ⊢
      exact blockLess_false_trans c b a hbc hab)
    (fun a b => by
      simp only [Bool.or_eq_true, decide_eq_true_eq, Bool.not_eq_true]
      exact blockLess_asymm a b)
    blocks
  unfold sortBlocks
  refine h.imp ?_
  intro a b hab
  simp only [decide_eq_true_eq, Bool.not_eq_true] at hab
  exact blockLess_false_page_le a b hab

/-- The page slice built by the ConvertToOptimizedPagesJSON loop BEFORE
the marshal and the PostgreSQL-safe cleanup does satisfy the claimed
shape: length max(declared pageCount clamped at 0, highest observed
positive block page number); entry j exactly the trimmed blank-line
concatenation of page j+1's blocks in (page, position) order; length
never below a non-negative declared page count; a page with no blocks
present as the empty string.  The divergence of the stored value enters
in the later cleanup stages. -/
theorem convertToOptimizedPages_spec (blocks : List TextBlock) (pageCount : Int) :
    (convertToOptimizedPages blocks pageCount).length =
      max (if pageCount < 0 then 0 else pageCount).toNat (maxObservedPage blocks) ∧
    (∀ j : Nat, j < (convertToOptimizedPages blocks pageCount).length →
      (convertToOptimizedPages blocks pageCount)[j]? =
        some (pageConcat (sortBlocks blocks) ((j : Int) + 1))) ∧
    (0 ≤ pageCount →
      pageCount ≤ ((convertToOptimizedPages blocks pageCount).length : Int)) ∧
    (∀ j : Nat, j < (convertToOptimizedPages blocks pageCount).length →
      (∀ b2 ∈ blocks, b2.pageNumber ≠ (j : Int) + 1) →
      (convertToOptimizedPages blocks pageCount)[j]? = some "") := by
  have hconv : convertToOptimizedPages blocks pageCount =
      runPages (sortBlocks blocks)
        (List.replicate (if pageCount < 0 then 0 else pageCount).toNat "") (-1) "" := rfl
  obtain ⟨h1, _h2, _h3, h4⟩ := runPages_spec (sortBlocks blocks)
    (List.replicate (if pageCount < 0 then 0 else pageCount).toNat "") (-1) ""
    (sortBlocks_pairwise blocks)
    (fun b _ h => by omega)
    (by omega)
    (by simp)
    (fun j _ hj => by
      simp only [List.length_replicate] at hj
      simp [List.getElem?_replicate, hj])
  have hperm : maxObservedPage (sortBlocks blocks) = maxObservedPage blocks :=
    maxObservedPage_perm _ _ (List.mergeSort_perm blocks _)
  rw [hconv]
  refine ⟨?_, ?_, ?_, ?_⟩
  · rw [h1, List.length_replicate, hperm]
  · intro j hj
    exact h4 j (by omega) hj
  · intro h
    rw [h1, List.length_replicate]
    rw [if_neg (by omega : ¬ pageCount < 0)]
    push_cast
    omega
  · intro j hj hnone
    rw [h4 j (by omega) hj]
    have hs : pageAcc (sortBlocks blocks) ((j : Int) + 1) "" = "" := by
      refine pageAcc_of_ne _ _ _ ?_
      intro x hx
      refine hnone x ?_
      have := List.mem_mergeSort.mp hx
      exact this
    rw [hs]
    rfl

/-- Sorting a single block is the identity. -/
theorem sortBlocks_singleton (b : TextBlock) : sortBlocks [b] = [b] := by
  simp [sortBlocks]

/-- C2: the STORED optimized-pages JSON does not meet the claim — the
post-marshal cleanup alters entries and can collapse the array.  For a
single page-1 block whose content is the two characters a, backspace — a
reachable sanitized content, since sanitizeText maps the eight-character
literal a-backslash-u001f-b to it (first conjunct) — the loop slice is
that very text, but the cleanup deletes the backslash-u0008 escape from
the marshalled JSON, so the stored array decodes to an entry of just a:
not the page's concatenated sanitized text.  For the six-character
literal backslash-u001f — a sanitizeText fixed point (fifth conjunct) —
the cleanup regex consumes the marshalled entry's closing quote, the
verification unmarshal fails, and the code stores the two-character empty
array: length 0, below the declared pageCount 1, the declared page
omitted. -/
theorem optimized_pages_stored_json_diverges :
    sanitizeText ⟨['a', '\\', 'u', '0', '0', '1', 'f', 'b']⟩ = ⟨['a', '\x08']⟩ ∧
    convertToOptimizedPages [⟨"paragraph", ⟨['a', '\x08']⟩, 0, 1, 0⟩] 1 =
      [⟨['a', '\x08']⟩] ∧
    convertToOptimizedPagesJSON [⟨"paragraph", ⟨['a', '\x08']⟩, 0, 1, 0⟩] 1 =
      ['[', '"', 'a', '"', ']'] ∧
    jsonUnmarshalStringArray
        (convertToOptimizedPagesJSON [⟨"paragraph", ⟨['a', '\x08']⟩, 0, 1, 0⟩] 1) =
      some ["a"] ∧
    sanitizeText ⟨['\\', 'u', '0', '0', '1', 'f']⟩ = ⟨['\\', 'u', '0', '0', '1', 'f']⟩ ∧
    convertToOptimizedPagesJSON
        [⟨"paragraph", ⟨['\\', 'u', '0', '0', '1', 'f']⟩, 0, 1, 0⟩] 1 =
      ['[', ']'] := by
  refine ⟨by decide, ?_, ?_, ?_, by decide, ?_⟩
  · simp only [convertToOptimizedPages, sortBlocks_singleton]
    decide
  · simp only [convertToOptimizedPagesJSON, convertToOptimizedPages, sortBlocks_singleton]
    decide
  · simp only [convertToOptimizedPagesJSON, convertToOptimizedPages, sortBlocks_singleton]
    decide
  · simp only [convertToOptimizedPagesJSON, convertToOptimizedPages, sortBlocks_singleton]
    decide

end Lector
